import Mathlib

/-!
# tcb::span (include/tcb/span.hpp)

A shallow embedding of the `span` class template and its free functions.

* A pointer is an `Int`, an address counted in elements, so `p + k` is the C++
  pointer arithmetic `p + k`; memory is a map from addresses to elements and
  dereferencing `*p` reads it.
* `index_type` is `std::ptrdiff_t`; its values are of type `Int`. Where the source
  converts to `std::size_t` (in `size_bytes`) or from it (the size a container
  reports) the reduction modulo `2 ^ w` is explicit, `w` being the width of
  `std::size_t` and `std::ptrdiff_t`.
* The template parameter `Extent` is an argument of the constructors; the two
  specialisations of `detail::span_storage` are the two constructors of
  `span_storage`.
-/

namespace tcb

/-- The memory a pointer is dereferenced in: addresses are integers. -/
abbrev Mem (α : Type) := Int → α

/-- The null pointer. -/
def nullptr : Int := 0

/-- Line 107: `constexpr std::ptrdiff_t dynamic_extent = -1`. -/
def dynamic_extent : Int := -1

/-- Lines 114-137, `detail::span_storage<E, S>`: the primary template keeps only
the pointer and has the static member `size = S`; the specialisation for
`dynamic_extent` keeps the pointer and the size. -/
inductive span_storage where
  | fixed (S : Int) (ptr : Int)
  | dynamic (ptr : Int) (size : Int)
deriving DecidableEq, Repr

/-- The constructor `span_storage<E, S>(ptr, count)`: lines 118-120 (the count
is unused) for a fixed `S`, lines 130-133 for `dynamic_extent`. -/
def span_storage.init (S : Int) (ptr : Int) (count : Int) : span_storage :=
  if S = dynamic_extent then span_storage.dynamic ptr count else span_storage.fixed S ptr

/-- The defaulted constructor `span_storage<E, S>()`: the member initialisers
`ptr = nullptr` and, in the dynamic specialisation, `size = 0`. -/
def span_storage.default (S : Int) : span_storage :=
  if S = dynamic_extent then span_storage.dynamic nullptr 0 else span_storage.fixed S nullptr

/-- The member `ptr` of either specialisation. -/
def span_storage.ptr : span_storage → Int
  | span_storage.fixed _ p => p
  | span_storage.dynamic p _ => p

/-- The member `size`: the constant `S` or the stored field. -/
def span_storage.size : span_storage → Int
  | span_storage.fixed S _ => S
  | span_storage.dynamic _ n => n

/-- Conversion of an integer to the `w`-bit `std::size_t`. -/
def to_size_t (w : Nat) (x : Int) : Nat := (x % 2 ^ w).toNat

/-- Conversion of a `w`-bit `std::size_t` value to `std::ptrdiff_t`
(two's complement). -/
def to_ptrdiff_t (w : Nat) (n : Nat) : Int :=
  if n % 2 ^ w < 2 ^ (w - 1) then ((n % 2 ^ w : Nat) : Int)
  else ((n % 2 ^ w : Nat) : Int) - 2 ^ w

/-- The exception `std::out_of_range` with its message. -/
inductive out_of_range where
  | mk (what : String)
deriving DecidableEq, Repr

/-- Lines 390-391: the text `snprintf` leaves in the 64-byte `msgbuf`. -/
def at_msgbuf (idx size : Int) : String :=
  ("Index " ++ toString idx ++ " is out of range for span of size " ++ toString size).take 63

/-- A `std::array<T, N>` object: what `data()` returns and its `N`. An object
has fewer than `PTRDIFF_MAX` elements, so converting its element count to
`index_type` keeps the value. -/
structure std_array where
  data : Int
  N : Nat
deriving DecidableEq, Repr

/-- A container object exposing `data()` and `size()`: the two values
`detail::data(cont)` and `detail::size(cont)` read, the second a `std::size_t`. -/
structure Container where
  data : Int
  size : Nat
deriving DecidableEq, Repr

/-- Lines 235-436, `span<ElementType, Extent>`: its only data member is
`storage_`. -/
structure span where
  storage_ : span_storage
deriving DecidableEq, Repr

namespace span

/-- Line 255, `static constexpr index_type extent = Extent`. -/
def extent (s : span) : Int :=
  match s.storage_ with
  | span_storage.fixed S _ => S
  | span_storage.dynamic _ _ => dynamic_extent

/-- Lines 264-266, `span(pointer ptr, index_type count)` of `span<T, Extent>`. -/
def init (Extent : Int) (ptr : Int) (count : Int) : span :=
  ⟨span_storage.init Extent ptr count⟩

/-- Lines 268-270, `span(pointer first_elem, pointer last_elem)`. -/
def init_range (Extent : Int) (first_elem last_elem : Int) : span :=
  ⟨span_storage.init Extent first_elem (last_elem - first_elem)⟩

/-- Line 366, `size()`. -/
def size (s : span) : Int := s.storage_.size

/-- Lines 412-415, `data()`. -/
def data (s : span) : Int := s.storage_.ptr

/-- Lines 373-376, `empty()`. -/
def empty (s : span) : Bool := decide (s.size = 0)

/-- Lines 379-382, `operator[]`: `*(data() + idx)`. -/
def index {α : Type} (mem : Mem α) (s : span) (idx : Int) : α :=
  mem (s.data + idx)

/-- Lines 350-353, `first(index_type count)`. -/
def first (s : span) (count : Int) : span :=
  init dynamic_extent s.data count

/-- Lines 355-358, `last(index_type count)`. -/
def last (s : span) (count : Int) : span :=
  init dynamic_extent (s.data + (s.size - count)) count

/-- Lines 360-363, `subspan(index_type offset, index_type count = dynamic_extent)`. -/
def subspan (s : span) (offset : Int) (count : Int := dynamic_extent) : span :=
  init dynamic_extent (s.data + offset)
    (if count = dynamic_extent then s.size - offset else count)

/-- Lines 368-371, `size_bytes()`: `size() * sizeof(element_type)`. The product
of a `std::ptrdiff_t` and a `std::size_t` is computed in `std::size_t`, that is
modulo `2 ^ w`, and converted back to `index_type` on return. -/
def size_bytes (w : Nat) (sizeof_element_type : Nat) (s : span) : Int :=
  to_ptrdiff_t w ((to_size_t w s.size * (sizeof_element_type % 2 ^ w)) % 2 ^ w)

/-- Lines 386-396, `at(index_type idx)`. `no_exceptions` is the configuration
`TCB_SPAN_NO_EXCEPTIONS`, under which the range check is compiled out. -/
def «at» {α : Type} (no_exceptions : Bool) (mem : Mem α) (s : span) (idx : Int) :
    Except out_of_range α :=
  if !no_exceptions && (decide (idx < 0) || decide (idx ≥ s.size)) then
    Except.error (out_of_range.mk (at_msgbuf idx s.size))
  else
    Except.ok (s.index mem idx)

/-- Lines 398, `front()`. -/
def front {α : Type} (mem : Mem α) (s : span) : α := s.index mem 0

/-- Lines 400, `back()`. -/
def back {α : Type} (mem : Mem α) (s : span) : α := s.index mem (s.size - 1)

/-- Lines 272-278, `span(element_type (&arr)[N])` of `span<T, Extent>`: the
overload exists only when `Extent == dynamic_extent || N == Extent`; `arr` is
the address of the array. -/
def from_array (Extent : Int) (arr : Int) (N : Nat) : Option span :=
  if Extent = dynamic_extent ∨ (N : Int) = Extent then some (init Extent arr N) else none

/-- Lines 280-294, `span(std::array<value_type, N>& arr)` and its `const`
twin: the same constraint, reading `arr.data()`. -/
def from_std_array (Extent : Int) (arr : std_array) : Option span :=
  if Extent = dynamic_extent ∨ (arr.N : Int) = Extent then
    some (init Extent arr.data arr.N)
  else none

/-- Lines 296-311, `span(Container& cont)` and its `const` twin:
`storage_(detail::data(cont), detail::size(cont))`, with no constraint on
`Extent`. The `std::size_t` that `detail::size(cont)` returns is converted to
the `std::ptrdiff_t` parameter of the `span_storage` constructor; `w` is the
width of both types. -/
def from_container (w : Nat) (Extent : Int) (cont : Container) : span :=
  init Extent cont.data (to_ptrdiff_t w cont.size)

/-- Lines 315-321, the converting constructor from `span<OtherElementType,
OtherExtent>`: it exists only when `Extent == OtherExtent || Extent ==
dynamic_extent`. -/
def from_span (Extent : Int) (other : span) : Option span :=
  if Extent = other.extent ∨ Extent = dynamic_extent then
    some (init Extent other.data other.size)
  else none

/-- The elements `v[0], …, v[size() - 1]` a view ranges over, in order. -/
def elements {α : Type} (mem : Mem α) (s : span) : List α :=
  (List.range s.size.toNat).map (fun k : Nat => s.index mem (k : Int))

end span

/-- Lines 505-509: the loop of `operator==`, entered at index `i`; `fuel`
bounds the number of iterations left. -/
def operator_eq_loop {T U : Type} (ne : T → U → Bool) (memT : Mem T) (memU : Mem U)
    (lhs rhs : span) : Nat → Int → Bool
  | 0, _ => true
  | fuel + 1, i =>
    if i < lhs.size then
      if ne (lhs.index memT i) (rhs.index memU i) then false
      else operator_eq_loop ne memT memU lhs rhs fuel (i + 1)
    else true

/-- Lines 498-512, `operator==(span<T, X> lhs, span<U, Y> rhs)`; `ne` is the
elements' `!=`. The loop runs at most `lhs.size()` times. -/
def operator_eq {T U : Type} (ne : T → U → Bool) (memT : Mem T) (memU : Mem U)
    (lhs rhs : span) : Bool :=
  if lhs.size ≠ rhs.size then false
  else operator_eq_loop ne memT memU lhs rhs lhs.size.toNat 0

/-- Lines 514-518, `operator!=`. -/
def operator_ne {T U : Type} (ne : T → U → Bool) (memT : Mem T) (memU : Mem U)
    (lhs rhs : span) : Bool :=
  !(operator_eq ne memT memU lhs rhs)

/-- Lines 526-534: the loop of `operator<` up to the bound `size`, entered at
index `i`, followed by the final `return lhs.size() < rhs.size()`. -/
def operator_lt_loop {T U : Type} (lt gt : T → U → Bool) (memT : Mem T) (memU : Mem U)
    (lhs rhs : span) (size : Int) : Nat → Int → Bool
  | 0, _ => decide (lhs.size < rhs.size)
  | fuel + 1, i =>
    if i < size then
      if lt (lhs.index memT i) (rhs.index memU i) then true
      else if gt (lhs.index memT i) (rhs.index memU i) then false
      else operator_lt_loop lt gt memT memU lhs rhs size fuel (i + 1)
    else decide (lhs.size < rhs.size)

/-- Lines 520-535, `operator<(span<T, X> lhs, span<U, Y> rhs)`; `lt` and `gt`
are the elements' `<` and `>` with a `T` on the left and a `U` on the right. -/
def operator_lt {T U : Type} (lt gt : T → U → Bool) (memT : Mem T) (memU : Mem U)
    (lhs rhs : span) : Bool :=
  let size := if lhs.size < rhs.size then lhs.size else rhs.size
  operator_lt_loop lt gt memT memU lhs rhs size size.toNat 0

/-- Lines 537-541, `operator<=`: `!(rhs < lhs)`. The inner `<` has the `U` view
on the left, so it uses the elements' `<` and `>` with a `U` on the left. -/
def operator_le {T U : Type} (ltUT gtUT : U → T → Bool) (memT : Mem T) (memU : Mem U)
    (lhs rhs : span) : Bool :=
  !(operator_lt ltUT gtUT memU memT rhs lhs)

/-- Lines 543-547, `operator>`: `rhs < lhs`. -/
def operator_gt {T U : Type} (ltUT gtUT : U → T → Bool) (memT : Mem T) (memU : Mem U)
    (lhs rhs : span) : Bool :=
  operator_lt ltUT gtUT memU memT rhs lhs

/-- Lines 549-553, `operator>=`: `!(lhs < rhs)`. -/
def operator_ge {T U : Type} (lt gt : T → U → Bool) (memT : Mem T) (memU : Mem U)
    (lhs rhs : span) : Bool :=
  !(operator_lt lt gt memT memU lhs rhs)

/-- The algorithm `std::lexicographical_compare(first1, last1, first2, last2)`
on two element sequences; `lt x y` is `x < y` and `lt' y x` is `y < x`. -/
def lexicographical_compare {T U : Type} (lt : T → U → Bool) (lt' : U → T → Bool) :
    List T → List U → Bool
  | [], [] => false
  | [], _ :: _ => true
  | _ :: _, [] => false
  | x :: xs, y :: ys =>
    if lt x y then true
    else if lt' y x then false
    else lexicographical_compare lt lt' xs ys

/-- The `n` elements `s[i], s[i + 1], …` of a view from index `i` on. -/
def elements_from {α : Type} (mem : Mem α) (s : span) : Int → Nat → List α
  | _, 0 => []
  | i, n + 1 => s.index mem i :: elements_from mem s (i + 1) n

/-- The memory `mem` holds the sequence `xs` from address `p` on. -/
def holds {α : Type} (mem : Mem α) (p : Int) (xs : List α) : Prop :=
  ∀ i : Nat, i < xs.length → xs[i]? = some (mem (p + (i : Int)))

/-- The view `v` reproduces the sequence `xs`: `v.size()` is the length of `xs`
and `v[i]` is `xs[i]` for every `i` in `[0, v.size())`. -/
def reproduces {α : Type} (mem : Mem α) (v : span) (xs : List α) : Prop :=
  v.size = (xs.length : Int) ∧
    ∀ i : Int, 0 ≤ i → i < v.size → xs[i.toNat]? = some (v.index mem i)

/-- An array object `{x₀, x₁, …}` placed at address `base`: the memory that
holds `xs` there (and `d` elsewhere). -/
def array_mem {α : Type} (base : Int) (xs : List α) (d : α) : Mem α :=
  fun p => if p < base then d else xs.getD (p - base).toNat d

/-- The view over the array `{10, 20, 30, 40}` placed at address 100. -/
def example_view : span := span.init dynamic_extent 100 4

/-- The memory holding `{10, 20, 30, 40}` at address 100. -/
def example_mem : Mem Int := array_mem 100 [10, 20, 30, 40] 0

/-- A memory holding the array `{1, 2, 3}` twice, at address 100 and at
address 200. -/
def two_arrays_mem : Mem Int :=
  fun p => if p < 200 then array_mem 100 [1, 2, 3] 0 p else array_mem 200 [1, 2, 3] 0 p

/-- The built-in `!=` on `int` elements. -/
def int_ne (x y : Int) : Bool := decide (x ≠ y)

/-- The built-in `<` on `int` elements. -/
def int_lt (x y : Int) : Bool := decide (x < y)

/-- The built-in `>` on `int` elements. -/
def int_gt (x y : Int) : Bool := decide (x > y)

/-- An element comparison under which no two elements are ordered (as `<` and
`>` behave on NaN): a non-total ordering. -/
def never_ordered (_ _ : Int) : Bool := false

/-- Lines 237-238, the `static_assert` of `span<ElementType, Extent>`: the class
can be instantiated only with `Extent == dynamic_extent || Extent >= 0`. -/
def valid_extent (Extent : Int) : Prop := Extent = dynamic_extent ∨ 0 ≤ Extent

instance (Extent : Int) : Decidable (valid_extent Extent) := by
  unfold valid_extent
  infer_instance

namespace span

/-- Lines 258-262, the default constructor `span()` of `span<T, Extent>`: the
overload exists only when `Extent <= 0`; `storage_` is value-initialised. -/
def default (Extent : Int) : Option span :=
  if Extent ≤ 0 then some ⟨span_storage.default Extent⟩ else none

/-- Lines 328-332, `first<Count>()`: `span<element_type, Count>{data(), Count}`. -/
def first_t (s : span) (Count : Int) : span :=
  init Count s.data Count

/-- Lines 334-338, `last<Count>()`:
`span<element_type, Count>{data() + (size() - Count), Count}`. -/
def last_t (s : span) (Count : Int) : span :=
  init Count (s.data + (s.size - Count)) Count

/-- Lines 342-343, the extent in the return type of `subspan<Offset, Count>()`
on a `span<ElementType, Extent>`. -/
def subspan_extent (Extent Offset Count : Int) : Int :=
  if Count ≠ dynamic_extent then Count
  else if Extent ≠ dynamic_extent then Extent - Offset else dynamic_extent

/-- Lines 340-348, `subspan<Offset, Count = dynamic_extent>()`. -/
def subspan_t (s : span) (Offset : Int) (Count : Int := dynamic_extent) : span :=
  init (subspan_extent s.extent Offset Count) (s.data + Offset)
    (if Count ≠ dynamic_extent then Count
     else if s.extent ≠ dynamic_extent then s.extent - Offset else s.size - Offset)

end span

/-- The cast `reinterpret_cast<const byte*>(p)` (and to `byte*`): the address is
kept, only the pointee type changes. -/
def reinterpret_cast (p : Int) : Int := p

/-- Lines 556-558 and 567-569, the extent in the return type of `as_bytes` and
`as_writable_bytes`: `dynamic_extent` for a dynamic source, else
`static_cast<ptrdiff_t>(sizeof(ElementType)) * Extent` (a constant expression:
the instantiation exists only when the product does not overflow). -/
def as_bytes_extent (sizeof_element_type : Nat) (Extent : Int) : Int :=
  if Extent = dynamic_extent then dynamic_extent else (sizeof_element_type : Int) * Extent

/-- Lines 555-562, `as_bytes(span<ElementType, Extent> s)`. -/
def as_bytes (w : Nat) (sizeof_element_type : Nat) (s : span) : span :=
  span.init (as_bytes_extent sizeof_element_type s.extent) (reinterpret_cast s.data)
    (s.size_bytes w sizeof_element_type)

/-- Lines 564-573, `as_writable_bytes(span<ElementType, Extent> s)`, which exists
only for a non-`const` `ElementType` (`is_const` is that property of the type). -/
def as_writable_bytes (is_const : Bool) (w : Nat) (sizeof_element_type : Nat) (s : span) :
    Option span :=
  if !is_const then
    some (span.init (as_bytes_extent sizeof_element_type s.extent) (reinterpret_cast s.data)
      (s.size_bytes w sizeof_element_type))
  else none

/-- The elements' `<` for an element type with a strict total order. -/
def elem_lt {α : Type} [LinearOrder α] (x y : α) : Bool := decide (x < y)

/-- The elements' `>` for an element type with a strict total order. -/
def elem_gt {α : Type} [LinearOrder α] (x y : α) : Bool := decide (x > y)

/-- The elements' `!=` for an element type with a strict total order. -/
def elem_ne {α : Type} [LinearOrder α] (x y : α) : Bool := decide (x ≠ y)

/-! ## Basic facts about the storage -/

theorem span.size_init_dynamic (p : Int) (c : Int) :
    (span.init dynamic_extent p c).size = c := by
  simp [span.init, span_storage.init, span.size, span_storage.size]

theorem span.data_init (E : Int) (p : Int) (c : Int) :
    (span.init E p c).data = p := by
  unfold span.init span_storage.init span.data
  split <;> rfl

theorem span.extent_init (E : Int) (p : Int) (c : Int) : (span.init E p c).extent = E := by
  unfold span.init span_storage.init span.extent
  by_cases h : E = dynamic_extent
  · simp [h]
  · simp [h]

theorem span.size_init (E : Int) (p : Int) (c : Int) :
    (span.init E p c).size = if E = dynamic_extent then c else E := by
  unfold span.init span_storage.init span.size
  by_cases h : E = dynamic_extent
  · simp [h, span_storage.size]
  · simp [h, span_storage.size]

theorem span.size_init_fixed (E : Int) (p : Int) (c : Int) (h : 0 ≤ E) :
    (span.init E p c).size = E := by
  have hne : E ≠ dynamic_extent := by
    intro hE
    rw [hE] at h
    exact absurd h (by decide)
  rw [span.size_init, if_neg hne]

theorem span.extent_ne_dynamic_of_nonneg (N : Int) (h : 0 ≤ N) : N ≠ dynamic_extent := by
  intro hE
  rw [hE] at h
  exact absurd h (by decide)

/-! ## Sub-views -/

/-- C1: for a view `v` and `0 ≤ offset`, `0 ≤ count`, `offset + count ≤ v.size()`,
`v.subspan(offset, count)` has size `count` and its element `k` is
`v[offset + k]` for every `k` in `[0, count)`. -/
theorem subspan_correct {α : Type} (mem : Mem α) (v : span) (offset count : Int)
    (_hoff : 0 ≤ offset) (hcount : 0 ≤ count) (_hfit : offset + count ≤ v.size) :
    (v.subspan offset count).size = count ∧
      ∀ k : Int, 0 ≤ k → k < count →
        (v.subspan offset count).index mem k = v.index mem (offset + k) := by
  have hne : count ≠ dynamic_extent := by
    intro h
    rw [h] at hcount
    exact absurd hcount (by decide)
  refine ⟨?_, ?_⟩
  · simp [span.subspan, hne, span.size_init_dynamic]
  · intro k _ _
    simp [span.subspan, span.index, span.data_init, add_assoc]

theorem subspan_correct_witness :
    ((0 : Int) ≤ 1 ∧ (0 : Int) ≤ 2 ∧ (1 : Int) + 2 ≤ example_view.size) ∧
    ((example_view.subspan 1 2).size = 2 ∧
      ∀ k : Int, 0 ≤ k → k < 2 →
        (example_view.subspan 1 2).index example_mem k = example_view.index example_mem (1 + k)) ∧
    (example_view.subspan 1 2).index example_mem 0 = 20 ∧
    (example_view.subspan 1 2).index example_mem 1 = 30 :=
  ⟨by decide,
   subspan_correct example_mem example_view 1 2 (by decide) (by decide) (by decide),
   by decide, by decide⟩

/-- C6: for `0 ≤ k ≤ v.size()`, `v.first(k)` is the same view as
`v.subspan(0, k)`: the same data pointer (that of `v`), the same size `k`, and
so the same elements `v[0], …, v[k - 1]`. -/
theorem first_eq_subspan {α : Type} (mem : Mem α) (v : span) (k : Int)
    (hk : 0 ≤ k) (_hkn : k ≤ v.size) :
    v.first k = v.subspan 0 k ∧
      (v.first k).data = v.data ∧ (v.first k).size = k ∧
      ∀ j : Int, 0 ≤ j → j < k → (v.first k).index mem j = v.index mem j := by
  have hne : k ≠ dynamic_extent := by
    intro h
    rw [h] at hk
    exact absurd hk (by decide)
  refine ⟨?_, ?_, ?_, ?_⟩
  · simp [span.first, span.subspan, hne]
  · simp [span.first, span.data_init]
  · simp [span.first, span.size_init_dynamic]
  · intro j _ _
    simp [span.first, span.index, span.data_init]

theorem first_eq_subspan_witness :
    ((0 : Int) ≤ 2 ∧ (2 : Int) ≤ example_view.size) ∧
    (example_view.first 2 = example_view.subspan 0 2 ∧
      (example_view.first 2).data = example_view.data ∧ (example_view.first 2).size = 2 ∧
      ∀ j : Int, 0 ≤ j → j < 2 →
        (example_view.first 2).index example_mem j = example_view.index example_mem j) ∧
    (example_view.first 2).elements example_mem = [10, 20] :=
  ⟨by decide, first_eq_subspan example_mem example_view 2 (by decide) (by decide), by decide⟩

/-- C7: for `0 ≤ k ≤ n = v.size()`, `v.last(k)` is the same view as
`v.subspan(n - k, k)`: it starts at element `n - k`, has size `k`, and its
element `j` is `v[n - k + j]`. -/
theorem last_eq_subspan {α : Type} (mem : Mem α) (v : span) (k : Int)
    (hk : 0 ≤ k) (_hkn : k ≤ v.size) :
    v.last k = v.subspan (v.size - k) k ∧
      (v.last k).data = v.data + (v.size - k) ∧ (v.last k).size = k ∧
      ∀ j : Int, 0 ≤ j → j < k →
        (v.last k).index mem j = v.index mem (v.size - k + j) := by
  have hne : k ≠ dynamic_extent := by
    intro h
    rw [h] at hk
    exact absurd hk (by decide)
  refine ⟨?_, ?_, ?_, ?_⟩
  · simp [span.last, span.subspan, hne]
  · simp [span.last, span.data_init]
  · simp [span.last, span.size_init_dynamic]
  · intro j _ _
    simp [span.last, span.index, span.data_init, add_assoc]

theorem last_eq_subspan_witness :
    ((0 : Int) ≤ 1 ∧ (1 : Int) ≤ example_view.size) ∧
    (example_view.last 1 = example_view.subspan (example_view.size - 1) 1 ∧
      (example_view.last 1).data = example_view.data + (example_view.size - 1) ∧
      (example_view.last 1).size = 1 ∧
      ∀ j : Int, 0 ≤ j → j < 1 →
        (example_view.last 1).index example_mem j
          = example_view.index example_mem (example_view.size - 1 + j)) ∧
    (example_view.last 1).elements example_mem = [40] :=
  ⟨by decide, last_eq_subspan example_mem example_view 1 (by decide) (by decide), by decide⟩

/-- C8: for `0 ≤ offset ≤ n = v.size()`, `v.subspan(offset)`, the count left at
its default `dynamic_extent`, has size `n - offset` and its element `k` is
`v[offset + k]` for every `k` in `[0, n - offset)`. -/
theorem subspan_rest {α : Type} (mem : Mem α) (v : span) (offset : Int)
    (_hoff : 0 ≤ offset) (_hfit : offset ≤ v.size) :
    (v.subspan offset).size = v.size - offset ∧
      ∀ k : Int, 0 ≤ k → k < v.size - offset →
        (v.subspan offset).index mem k = v.index mem (offset + k) := by
  refine ⟨?_, ?_⟩
  · simp [span.subspan, span.size_init_dynamic]
  · intro k _ _
    simp [span.subspan, span.index, span.data_init, add_assoc]

theorem subspan_rest_witness :
    ((0 : Int) ≤ 1 ∧ (1 : Int) ≤ example_view.size) ∧
    ((example_view.subspan 1).size = example_view.size - 1 ∧
      ∀ k : Int, 0 ≤ k → k < example_view.size - 1 →
        (example_view.subspan 1).index example_mem k = example_view.index example_mem (1 + k)) ∧
    (example_view.subspan 1).elements example_mem = [20, 30, 40] :=
  ⟨by decide, subspan_rest example_mem example_view 1 (by decide) (by decide), by decide⟩

/-! ## Checked access -/

/-- C4: with exceptions enabled, `v.at(i)` throws `std::out_of_range` if and only
if `i < 0` or `i ≥ v.size()`, and for `i` in `[0, v.size())` it returns the
element `v[i]`. -/
theorem at_checked {α : Type} (mem : Mem α) (v : span) (i : Int) :
    ((∃ e : out_of_range, v.at false mem i = Except.error e) ↔ (i < 0 ∨ i ≥ v.size)) ∧
      (0 ≤ i → i < v.size → v.at false mem i = Except.ok (v.index mem i)) := by
  by_cases h : i < 0 ∨ i ≥ v.size
  · refine ⟨⟨fun _ => h, fun _ => ?_⟩, ?_⟩
    · rcases h with h | h <;> simp [span.at, h]
    · intro h0 hn
      rcases h with h | h <;> omega
  · have h1 : ¬ i < 0 := fun hh => h (Or.inl hh)
    have h2 : ¬ i ≥ v.size := fun hh => h (Or.inr hh)
    refine ⟨⟨?_, fun hh => absurd hh h⟩, ?_⟩
    · rintro ⟨e, he⟩
      simp [span.at, h1, h2] at he
    · intro _ _
      simp [span.at, h1, h2]

theorem at_checked_witness :
    (((∃ e : out_of_range, example_view.at false example_mem 4 = Except.error e) ↔
        ((4 : Int) < 0 ∨ (4 : Int) ≥ example_view.size)) ∧
      ((0 : Int) ≤ 4 → (4 : Int) < example_view.size →
        example_view.at false example_mem 4 = Except.ok (example_view.index example_mem 4))) ∧
    ((0 : Int) ≤ 3 ∧ (3 : Int) < example_view.size) ∧
    example_view.at false example_mem 3 = Except.ok 40 ∧
    example_view.back example_mem = 40 ∧
    (∃ e : out_of_range, example_view.at false example_mem 4 = Except.error e) :=
  ⟨at_checked example_mem example_view 4, by decide,
   ((at_checked example_mem example_view 3).2 (by decide) (by decide)).trans rfl,
   by decide,
   (at_checked example_mem example_view 4).1.2 (Or.inr (by decide))⟩

/-! ## Derived comparison operators -/

/-- C5: for any two views and any element comparisons (no order axioms are
assumed), `a <= b` is `!(b < a)`, `a > b` is `b < a` and `a >= b` is
`!(a < b)`, where `<` is the views' `operator<`. -/
theorem derived_operators {T U : Type} (ltTU gtTU : T → U → Bool) (ltUT gtUT : U → T → Bool)
    (memT : Mem T) (memU : Mem U) (a b : span) :
    operator_le ltUT gtUT memT memU a b = !(operator_lt ltUT gtUT memU memT b a) ∧
    operator_gt ltUT gtUT memT memU a b = operator_lt ltUT gtUT memU memT b a ∧
    operator_ge ltTU gtTU memT memU a b = !(operator_lt ltTU gtTU memT memU a b) :=
  ⟨rfl, rfl, rfl⟩

theorem derived_operators_witness :
    (operator_le never_ordered never_ordered (array_mem 100 [1] 0) (array_mem 200 [2] 0)
        (span.init dynamic_extent 100 1) (span.init dynamic_extent 200 1)
      = !(operator_lt never_ordered never_ordered (array_mem 200 [2] 0) (array_mem 100 [1] 0)
        (span.init dynamic_extent 200 1) (span.init dynamic_extent 100 1)) ∧
    operator_gt never_ordered never_ordered (array_mem 100 [1] 0) (array_mem 200 [2] 0)
        (span.init dynamic_extent 100 1) (span.init dynamic_extent 200 1)
      = operator_lt never_ordered never_ordered (array_mem 200 [2] 0) (array_mem 100 [1] 0)
        (span.init dynamic_extent 200 1) (span.init dynamic_extent 100 1) ∧
    operator_ge never_ordered never_ordered (array_mem 100 [1] 0) (array_mem 200 [2] 0)
        (span.init dynamic_extent 100 1) (span.init dynamic_extent 200 1)
      = !(operator_lt never_ordered never_ordered (array_mem 100 [1] 0) (array_mem 200 [2] 0)
        (span.init dynamic_extent 100 1) (span.init dynamic_extent 200 1))) ∧
    operator_le never_ordered never_ordered (array_mem 100 [1] 0) (array_mem 200 [2] 0)
      (span.init dynamic_extent 100 1) (span.init dynamic_extent 200 1) = true ∧
    operator_ge never_ordered never_ordered (array_mem 100 [1] 0) (array_mem 200 [2] 0)
      (span.init dynamic_extent 100 1) (span.init dynamic_extent 200 1) = true ∧
    operator_gt never_ordered never_ordered (array_mem 100 [1] 0) (array_mem 200 [2] 0)
      (span.init dynamic_extent 100 1) (span.init dynamic_extent 200 1) = false :=
  ⟨derived_operators never_ordered never_ordered never_ordered never_ordered
      (array_mem 100 [1] 0) (array_mem 200 [2] 0)
      (span.init dynamic_extent 100 1) (span.init dynamic_extent 200 1),
   by decide, by decide, by decide⟩

/-! ## Equality -/

theorem operator_eq_loop_true_iff {T U : Type} (ne : T → U → Bool) (memT : Mem T)
    (memU : Mem U) (lhs rhs : span) (fuel : Nat) :
    ∀ i : Int, lhs.size - i ≤ fuel →
      (operator_eq_loop ne memT memU lhs rhs fuel i = true ↔
        ∀ j : Int, i ≤ j → j < lhs.size → ne (lhs.index memT j) (rhs.index memU j) = false) := by
  induction fuel with
  | zero =>
    intro i hi
    simp only [operator_eq_loop, true_iff]
    intro j hij hj
    simp only [Nat.cast_zero] at hi
    omega
  | succ n ih =>
    intro i hi
    simp only [operator_eq_loop]
    by_cases hlt : i < lhs.size
    · simp only [hlt, if_true]
      by_cases hne : ne (lhs.index memT i) (rhs.index memU i) = true
      · simp only [hne, if_true]
        constructor
        · intro h; exact absurd h (by decide)
        · intro h
          have := h i (le_refl i) hlt
          rw [hne] at this
          exact absurd this (by decide)
      · have hne' : ne (lhs.index memT i) (rhs.index memU i) = false := by
          simpa using hne
        simp only [hne', Bool.false_eq_true, if_false]
        rw [ih (i + 1) (by push_cast at hi; omega)]
        constructor
        · intro h j hij hj
          by_cases hji : j = i
          · rw [hji]; exact hne'
          · exact h j (by omega) hj
        · intro h j hij hj
          exact h j (by omega) hj
    · simp only [hlt, if_false, true_iff]
      intro j hij hj
      omega

theorem operator_eq_true_iff {T U : Type} (ne : T → U → Bool) (memT : Mem T) (memU : Mem U)
    (a b : span) :
    operator_eq ne memT memU a b = true ↔
      a.size = b.size ∧
        ∀ i : Int, 0 ≤ i → i < a.size → ne (a.index memT i) (b.index memU i) = false := by
  unfold operator_eq
  by_cases hs : a.size = b.size
  · simp only [ne_eq, hs, not_true_eq_false, if_false, true_and]
    rw [operator_eq_loop_true_iff ne memT memU a b _ 0 (by rw [hs]; omega)]
    simp only [hs]
  · simp [hs]

/-- C2: `a == b` is true exactly when `a.size() == b.size()` and `a[i]`
compares equal to `b[i]` (the elements' `!=` is false) for every `i` in
`[0, a.size())`; when the elements' `==` is the negation of their `!=` this is
`a[i] == b[i]`; and the result is the same for any two other views, in any
memory and at any addresses, with the same sizes and the same elements. -/
theorem operator_eq_correct {T U : Type} (ne : T → U → Bool) (memT : Mem T) (memU : Mem U)
    (a b : span) :
    (operator_eq ne memT memU a b = true ↔
      a.size = b.size ∧
        ∀ i : Int, 0 ≤ i → i < a.size → ne (a.index memT i) (b.index memU i) = false) ∧
    (∀ eq : T → U → Bool, (∀ x y, ne x y = !eq x y) →
      (operator_eq ne memT memU a b = true ↔
        a.size = b.size ∧
          ∀ i : Int, 0 ≤ i → i < a.size → eq (a.index memT i) (b.index memU i) = true)) ∧
    (∀ (memT' : Mem T) (memU' : Mem U) (a' b' : span),
      a'.size = a.size → b'.size = b.size →
      (∀ i : Int, 0 ≤ i → i < a.size → a'.index memT' i = a.index memT i) →
      (∀ i : Int, 0 ≤ i → i < b.size → b'.index memU' i = b.index memU i) →
      operator_eq ne memT' memU' a' b' = operator_eq ne memT memU a b) := by
  refine ⟨operator_eq_true_iff ne memT memU a b, ?_, ?_⟩
  · intro eq heq
    rw [operator_eq_true_iff]
    constructor
    · rintro ⟨hs, h⟩
      refine ⟨hs, fun i h0 hi => ?_⟩
      have := h i h0 hi
      rw [heq] at this
      simpa using this
    · rintro ⟨hs, h⟩
      refine ⟨hs, fun i h0 hi => ?_⟩
      rw [heq, h i h0 hi]
      rfl
  · intro memT' memU' a' b' ha hb hea heb
    rw [Bool.eq_iff_iff, operator_eq_true_iff, operator_eq_true_iff, ha, hb]
    constructor
    · rintro ⟨hs, h⟩
      refine ⟨hs, fun i h0 hi => ?_⟩
      rw [← hea i h0 hi, ← heb i h0 (by omega)]
      exact h i h0 hi
    · rintro ⟨hs, h⟩
      refine ⟨hs, fun i h0 hi => ?_⟩
      rw [hea i h0 hi, heb i h0 (by omega)]
      exact h i h0 hi

theorem operator_eq_correct_witness :
    operator_eq int_ne two_arrays_mem two_arrays_mem
      (span.init dynamic_extent 100 3) (span.init dynamic_extent 200 3) = true ∧
    (span.init dynamic_extent 100 3).data ≠ (span.init dynamic_extent 200 3).data ∧
    (span.init dynamic_extent 100 3).size = (span.init dynamic_extent 200 3).size ∧
    (∀ i : Int, 0 ≤ i → i < (span.init dynamic_extent 100 3).size →
      int_ne ((span.init dynamic_extent 100 3).index two_arrays_mem i)
        ((span.init dynamic_extent 200 3).index two_arrays_mem i) = false) ∧
    operator_eq int_ne two_arrays_mem two_arrays_mem
      (span.init dynamic_extent 100 3) (span.init dynamic_extent 200 2) = false :=
  ⟨by decide, by decide, by decide,
   ((operator_eq_correct int_ne two_arrays_mem two_arrays_mem
      (span.init dynamic_extent 100 3) (span.init dynamic_extent 200 3)).1.1 (by decide)).2,
   by decide⟩

/-! ## Ordering -/

theorem map_range_eq_elements_from {α : Type} (mem : Mem α) (s : span) (n : Nat) :
    ∀ i : Int, (List.range n).map (fun k : Nat => s.index mem (i + (k : Int)))
      = elements_from mem s i n := by
  induction n with
  | zero => intro i; rfl
  | succ n ih =>
    intro i
    rw [List.range_succ_eq_map, List.map_cons, List.map_map, elements_from, ← ih (i + 1)]
    congr 1
    · simp
    · apply List.map_congr_left
      intro k _
      simp only [Function.comp, Nat.succ_eq_add_one, Nat.cast_add, Nat.cast_one]
      congr 1
      omega

theorem elements_eq_elements_from {α : Type} (mem : Mem α) (s : span) :
    s.elements mem = elements_from mem s 0 s.size.toNat := by
  rw [← map_range_eq_elements_from]
  unfold span.elements
  apply List.map_congr_left
  intro k _
  simp

theorem operator_lt_loop_index {T U : Type} (lt gt : T → U → Bool) (memT : Mem T)
    (memU : Mem U) (a b : span) (m : Int) (fuel : Nat) :
    ∀ i : Int, m - i ≤ fuel →
      (∃ k : Int, i ≤ k ∧ k < m ∧
        (∀ j : Int, i ≤ j → j < k →
          lt (a.index memT j) (b.index memU j) = false ∧
          gt (a.index memT j) (b.index memU j) = false) ∧
        (lt (a.index memT k) (b.index memU k) = true ∨
          gt (a.index memT k) (b.index memU k) = true) ∧
        operator_lt_loop lt gt memT memU a b m fuel i = lt (a.index memT k) (b.index memU k)) ∨
      ((∀ j : Int, i ≤ j → j < m →
          lt (a.index memT j) (b.index memU j) = false ∧
          gt (a.index memT j) (b.index memU j) = false) ∧
        operator_lt_loop lt gt memT memU a b m fuel i = decide (a.size < b.size)) := by
  induction fuel with
  | zero =>
    intro i hi
    right
    refine ⟨fun j hij hj => ?_, rfl⟩
    simp only [Nat.cast_zero] at hi
    omega
  | succ n ih =>
    intro i hi
    simp only [operator_lt_loop]
    by_cases hlt : i < m
    · simp only [hlt, if_true]
      by_cases h1 : lt (a.index memT i) (b.index memU i) = true
      · left
        refine ⟨i, le_refl i, hlt, fun j hij hj => by omega, Or.inl h1, ?_⟩
        simp [h1]
      · have h1' : lt (a.index memT i) (b.index memU i) = false := by simpa using h1
        simp only [h1', Bool.false_eq_true, if_false]
        by_cases h2 : gt (a.index memT i) (b.index memU i) = true
        · left
          refine ⟨i, le_refl i, hlt, fun j hij hj => by omega, Or.inr h2, ?_⟩
          simp [h2, h1']
        · have h2' : gt (a.index memT i) (b.index memU i) = false := by simpa using h2
          simp only [h2', Bool.false_eq_true, if_false]
          have hstep : ∀ j : Int, i ≤ j → j < i + 1 →
              lt (a.index memT j) (b.index memU j) = false ∧
              gt (a.index memT j) (b.index memU j) = false := by
            intro j hij hj
            have : j = i := by omega
            rw [this]
            exact ⟨h1', h2'⟩
          rcases ih (i + 1) (by push_cast at hi; omega) with ⟨k, hk1, hk2, hk3, hk4, hk5⟩ | ⟨hk, hr⟩
          · left
            refine ⟨k, by omega, hk2, fun j hij hj => ?_, hk4, hk5⟩
            by_cases hji : j < i + 1
            · exact hstep j hij hji
            · exact hk3 j (by omega) hj
          · right
            refine ⟨fun j hij hj => ?_, hr⟩
            by_cases hji : j < i + 1
            · exact hstep j hij hji
            · exact hk j (by omega) hj
    · refine Or.inr ⟨fun j hij hj => by omega, ?_⟩
      simp only [hlt, if_false]

theorem operator_lt_loop_eq_lex {T U : Type} (lt gt : T → U → Bool) (memT : Mem T)
    (memU : Mem U) (a b : span) (fuel : Nat) :
    ∀ (i : Int) (na nb : Nat), a.size - i = na → b.size - i = nb →
      (((if a.size < b.size then a.size else b.size) - i : Int) ≤ fuel) →
      operator_lt_loop lt gt memT memU a b (if a.size < b.size then a.size else b.size) fuel i
        = lexicographical_compare lt (fun y x => gt x y)
            (elements_from memT a i na) (elements_from memU b i nb) := by
  induction fuel with
  | zero =>
    intro i na nb hna hnb hfuel
    simp only [operator_lt_loop]
    simp only [Nat.cast_zero] at hfuel
    by_cases hab : a.size < b.size
    · simp only [hab, if_true] at hfuel
      have h0 : na = 0 := by omega
      obtain ⟨nb', hnb'⟩ : ∃ n, nb = n + 1 := ⟨nb - 1, by omega⟩
      subst h0
      subst hnb'
      simp [hab, elements_from, lexicographical_compare]
    · simp only [hab, if_false] at hfuel
      have h0 : nb = 0 := by omega
      subst h0
      cases na <;> simp [hab, elements_from, lexicographical_compare]
  | succ n ih =>
    intro i na nb hna hnb hfuel
    simp only [operator_lt_loop]
    by_cases hlt : i < (if a.size < b.size then a.size else b.size)
    · have hia : i < a.size := by split at hlt <;> omega
      have hib : i < b.size := by split at hlt <;> omega
      obtain ⟨na', hna'⟩ : ∃ k, na = k + 1 := ⟨na - 1, by omega⟩
      obtain ⟨nb', hnb'⟩ : ∃ k, nb = k + 1 := ⟨nb - 1, by omega⟩
      subst hna'
      subst hnb'
      simp only [hlt, if_true, elements_from, lexicographical_compare]
      rw [ih (i + 1) na' nb' (by push_cast at hna; omega) (by push_cast at hnb; omega)
        (by push_cast at hfuel; omega)]
    · simp only [hlt, if_false]
      by_cases hab : a.size < b.size
      · simp only [hab, if_true] at hlt
        have h0 : na = 0 := by omega
        obtain ⟨nb', hnb'⟩ : ∃ k, nb = k + 1 := ⟨nb - 1, by omega⟩
        subst h0
        subst hnb'
        simp [hab, elements_from, lexicographical_compare]
      · simp only [hab, if_false] at hlt
        have h0 : nb = 0 := by omega
        subst h0
        cases na <;> simp [hab, elements_from, lexicographical_compare]

/-- C3: `a < b` is the lexicographic comparison. Elements are compared in order
up to the shorter length `min(a.size(), b.size())`; at the first index `k`
where `a[k] < b[k]` or `a[k] > b[k]` (one element is strictly less than the
other) the result is `a[k] < b[k]`; if there is no such index the result is
`a.size() < b.size()`. For views over element sequences (sizes not negative)
this is the result of `std::lexicographical_compare` on the two sequences. -/
theorem operator_lt_lexicographic {T U : Type} (lt gt : T → U → Bool) (memT : Mem T)
    (memU : Mem U) (a b : span) :
    ((∃ k : Int, 0 ≤ k ∧ k < min a.size b.size ∧
        (∀ j : Int, 0 ≤ j → j < k →
          lt (a.index memT j) (b.index memU j) = false ∧
          gt (a.index memT j) (b.index memU j) = false) ∧
        (lt (a.index memT k) (b.index memU k) = true ∨
          gt (a.index memT k) (b.index memU k) = true) ∧
        operator_lt lt gt memT memU a b = lt (a.index memT k) (b.index memU k)) ∨
      ((∀ j : Int, 0 ≤ j → j < min a.size b.size →
          lt (a.index memT j) (b.index memU j) = false ∧
          gt (a.index memT j) (b.index memU j) = false) ∧
        operator_lt lt gt memT memU a b = decide (a.size < b.size))) ∧
    (0 ≤ a.size → 0 ≤ b.size →
      operator_lt lt gt memT memU a b
        = lexicographical_compare lt (fun y x => gt x y) (a.elements memT) (b.elements memU)) := by
  have hmin : (if a.size < b.size then a.size else b.size) = min a.size b.size := by
    by_cases h : a.size < b.size
    · simp only [h, if_true]
      exact (min_eq_left (le_of_lt h)).symm
    · simp only [h, if_false]
      exact (min_eq_right (not_lt.mp h)).symm
  refine ⟨?_, ?_⟩
  · have h := operator_lt_loop_index lt gt memT memU a b (min a.size b.size)
      (min a.size b.size).toNat 0 (by omega)
    unfold operator_lt
    simp only [hmin]
    exact h
  · intro ha hb
    unfold operator_lt
    simp only []
    rw [operator_lt_loop_eq_lex lt gt memT memU a b _ 0 a.size.toNat b.size.toNat
      (by omega) (by omega) (by split <;> omega),
      elements_eq_elements_from, elements_eq_elements_from]

theorem operator_lt_lexicographic_witness :
    (((0 : Int) ≤ (span.init dynamic_extent 100 2).size ∧
        (0 : Int) ≤ (span.init dynamic_extent 200 2).size) ∧
      operator_lt int_lt int_gt (array_mem 100 [1, 2] 0) (array_mem 200 [1, 3] 0)
          (span.init dynamic_extent 100 2) (span.init dynamic_extent 200 2)
        = lexicographical_compare int_lt (fun y x => int_gt x y)
            ((span.init dynamic_extent 100 2).elements (array_mem 100 [1, 2] 0))
            ((span.init dynamic_extent 200 2).elements (array_mem 200 [1, 3] 0))) ∧
    operator_lt int_lt int_gt (array_mem 100 [1, 2] 0) (array_mem 200 [1, 3] 0)
      (span.init dynamic_extent 100 2) (span.init dynamic_extent 200 2) = true ∧
    operator_lt int_lt int_gt (array_mem 100 [1] 0) (array_mem 200 [1, 2] 0)
      (span.init dynamic_extent 100 1) (span.init dynamic_extent 200 2) = true ∧
    operator_lt int_lt int_gt (array_mem 100 [1, 2] 0) (array_mem 200 [1, 2] 0)
      (span.init dynamic_extent 100 2) (span.init dynamic_extent 200 2) = false :=
  ⟨⟨by decide,
    (operator_lt_lexicographic int_lt int_gt (array_mem 100 [1, 2] 0) (array_mem 200 [1, 3] 0)
      (span.init dynamic_extent 100 2) (span.init dynamic_extent 200 2)).2
        (by decide) (by decide)⟩,
   by decide, by decide, by decide⟩

/-! ## Construction -/

theorem span.size_init_of_eq (E : Int) (p : Int) (c : Int)
    (h : E = dynamic_extent ∨ c = E) : (span.init E p c).size = c := by
  unfold span.init span_storage.init span.size
  by_cases hE : E = dynamic_extent
  · simp [hE, span_storage.size]
  · rcases h with h | h
    · exact absurd h hE
    · simp [hE, span_storage.size, h]

theorem reproduces_init {α : Type} (mem : Mem α) (xs : List α) (p : Int) (E : Int)
    (hmem : holds mem p xs) (h : E = dynamic_extent ∨ (xs.length : Int) = E) :
    reproduces mem (span.init E p xs.length) xs := by
  have hsz := span.size_init_of_eq E p xs.length h
  refine ⟨hsz, fun i h0 hi => ?_⟩
  rw [hsz] at hi
  have := hmem i.toNat (by omega)
  rw [this, span.index, span.data_init, Int.toNat_of_nonneg h0]

theorem span.size_eq_extent_of_fixed (w : span) (h : w.extent ≠ dynamic_extent) :
    w.size = w.extent := by
  unfold span.size span.extent span_storage.size
  unfold span.extent at h
  cases hw : w.storage_ with
  | fixed S q => rfl
  | dynamic q n => rw [hw] at h; exact absurd rfl h

theorem to_ptrdiff_t_of_lt (w : Nat) (n : Nat) (h : n < 2 ^ (w - 1)) :
    to_ptrdiff_t w n = (n : Int) := by
  have hle : 2 ^ (w - 1) ≤ 2 ^ w := Nat.pow_le_pow_right (by decide) (Nat.sub_le w 1)
  have hmod : n % 2 ^ w = n := Nat.mod_eq_of_lt (lt_of_lt_of_le h hle)
  unfold to_ptrdiff_t
  rw [hmod, if_pos h]

theorem reproduces_of_data_size {α : Type} (mem : Mem α) (xs : List α) (p : Int) (v : span)
    (hmem : holds mem p xs) (hdata : v.data = p) (hsz : v.size = (xs.length : Int)) :
    reproduces mem v xs := by
  refine ⟨hsz, fun i h0 hi => ?_⟩
  rw [hsz] at hi
  have := hmem i.toNat (by omega)
  rw [this, span.index, hdata, Int.toNat_of_nonneg h0]

/-- C9, with the extent condition of the container constructor: a view constructed from a sequence `xs` held in memory
reproduces it (its size is the length of `xs` and reading every index gives
`xs`) when it is built from a raw array, from a `std::array`, or from another
view of `xs`, these constructors existing exactly under their extent
constraint; and when it is built from a generic container and the view's
extent is equal to the length of `xs`, or is dynamic and the length of `xs` is
representable in the `w`-bit `index_type`. -/
theorem construction_round_trip {α : Type} (mem : Mem α) (xs : List α) (p : Int)
    (Extent : Int) (w : Nat) (hmem : holds mem p xs) :
    ((span.from_array Extent p xs.length).isSome
        = decide (Extent = dynamic_extent ∨ (xs.length : Int) = Extent) ∧
      ∀ v, span.from_array Extent p xs.length = some v → reproduces mem v xs) ∧
    ((span.from_std_array Extent ⟨p, xs.length⟩).isSome
        = decide (Extent = dynamic_extent ∨ (xs.length : Int) = Extent) ∧
      ∀ v, span.from_std_array Extent ⟨p, xs.length⟩ = some v → reproduces mem v xs) ∧
    (((Extent = dynamic_extent ∧ xs.length < 2 ^ (w - 1)) ∨ (xs.length : Int) = Extent) →
      reproduces mem (span.from_container w Extent ⟨p, xs.length⟩) xs) ∧
    (∀ other : span, other.data = p → other.size = (xs.length : Int) →
      (span.from_span Extent other).isSome
          = decide (Extent = other.extent ∨ Extent = dynamic_extent) ∧
        ∀ v, span.from_span Extent other = some v → reproduces mem v xs) := by
  refine ⟨⟨?_, ?_⟩, ⟨?_, ?_⟩, ?_, ?_⟩
  · unfold span.from_array
    by_cases h : Extent = dynamic_extent ∨ (xs.length : Int) = Extent <;> simp [h]
  · intro v hv
    unfold span.from_array at hv
    by_cases h : Extent = dynamic_extent ∨ (xs.length : Int) = Extent
    · rw [if_pos h] at hv
      cases hv
      exact reproduces_init mem xs p Extent hmem h
    · rw [if_neg h] at hv
      cases hv
  · unfold span.from_std_array
    by_cases h : Extent = dynamic_extent ∨ (xs.length : Int) = Extent <;> simp [h]
  · intro v hv
    unfold span.from_std_array at hv
    by_cases h : Extent = dynamic_extent ∨ (xs.length : Int) = Extent
    · rw [if_pos h] at hv
      cases hv
      exact reproduces_init mem xs p Extent hmem h
    · rw [if_neg h] at hv
      cases hv
  · intro h
    refine reproduces_of_data_size mem xs p _ hmem (span.data_init _ _ _) ?_
    unfold span.from_container
    rw [span.size_init]
    rcases h with ⟨hd, hlen⟩ | hfix
    · rw [if_pos hd]
      exact to_ptrdiff_t_of_lt w xs.length hlen
    · have hne : Extent ≠ dynamic_extent :=
        span.extent_ne_dynamic_of_nonneg Extent (by rw [← hfix]; exact Int.ofNat_nonneg _)
      rw [if_neg hne, hfix]
  · intro other hp hsz
    refine ⟨?_, ?_⟩
    · unfold span.from_span
      by_cases h : Extent = other.extent ∨ Extent = dynamic_extent <;> simp [h]
    · intro v hv
      unfold span.from_span at hv
      by_cases h : Extent = other.extent ∨ Extent = dynamic_extent
      · rw [if_pos h] at hv
        cases hv
        rw [hp, hsz]
        apply reproduces_init mem xs p Extent hmem
        by_cases hd : Extent = dynamic_extent
        · exact Or.inl hd
        · rcases h with h | h
          · right
            rw [h, ← hsz]
            exact span.size_eq_extent_of_fixed other (by rw [← h]; exact hd)
          · exact absurd h hd
      · rw [if_neg h] at hv
        cases hv

theorem example_mem_holds : holds example_mem 100 [10, 20, 30, 40] := by
  intro i hi
  have hi' : i < 4 := hi
  interval_cases i <;> rfl

theorem construction_round_trip_witness :
    holds example_mem 100 [10, 20, 30, 40] ∧
    reproduces example_mem (span.from_container 64 dynamic_extent ⟨100, 4⟩)
      [10, 20, 30, 40] ∧
    (span.from_array 4 100 4).isSome = true ∧
    (span.from_container 64 dynamic_extent ⟨100, 4⟩).elements example_mem = [10, 20, 30, 40] :=
  ⟨example_mem_holds,
   (construction_round_trip example_mem [10, 20, 30, 40] 100 dynamic_extent 64
      example_mem_holds).2.2.1 (Or.inl ⟨rfl, by decide⟩),
   by decide, by decide⟩

/-- C9 as stated fails for the container constructor of a fixed-extent view:
`span<int, 2>` built from a container holding `{10, 20, 30, 40}` has `size()`
2, not 4. -/
theorem construction_round_trip_counterexample :
    holds example_mem 100 [10, 20, 30, 40] ∧
    (span.from_container 64 2 ⟨100, 4⟩).size = 2 ∧
    ¬ reproduces example_mem (span.from_container 64 2 ⟨100, 4⟩) [10, 20, 30, 40] := by
  refine ⟨example_mem_holds, by decide, ?_⟩
  rintro ⟨hsz, _⟩
  exact absurd hsz (by decide)

/-! ## Observers -/

theorem to_ptrdiff_t_to_size_t (w : Nat) (hw : 0 < w) (x : Int)
    (hlo : -(2 ^ (w - 1) : Int) ≤ x) (hhi : x < 2 ^ (w - 1)) :
    to_ptrdiff_t w (to_size_t w x) = x := by
  have hpow : (2 : Int) ^ w = 2 * 2 ^ (w - 1) := by
    obtain ⟨k, rfl⟩ : ∃ k, w = k + 1 := ⟨w - 1, by omega⟩
    simp [pow_succ, mul_comm]
  have hpos : (0 : Int) < 2 ^ w := by positivity
  have hmod_nonneg : 0 ≤ x % 2 ^ w := Int.emod_nonneg x (ne_of_gt hpos)
  have hmod_lt : x % 2 ^ w < 2 ^ w := Int.emod_lt_of_pos x hpos
  have hcast : ((to_size_t w x : Nat) : Int) = x % 2 ^ w := by
    unfold to_size_t
    exact Int.toNat_of_nonneg hmod_nonneg
  have hlt : to_size_t w x < 2 ^ w := by
    have : ((to_size_t w x : Nat) : Int) < ((2 ^ w : Nat) : Int) := by
      rw [hcast]; push_cast; exact hmod_lt
    exact_mod_cast this
  unfold to_ptrdiff_t
  rw [Nat.mod_eq_of_lt hlt]
  by_cases hx : 0 ≤ x
  · have hxm : x % 2 ^ w = x := Int.emod_eq_of_lt hx (by omega)
    have hsmall : to_size_t w x < 2 ^ (w - 1) := by
      have : ((to_size_t w x : Nat) : Int) < ((2 ^ (w - 1) : Nat) : Int) := by
        rw [hcast, hxm]; push_cast; exact hhi
      exact_mod_cast this
    rw [if_pos hsmall, hcast, hxm]
  · have hxm : x % 2 ^ w = x + 2 ^ w := by
      have h1 : (x + 2 ^ w) % 2 ^ w = x % 2 ^ w := by simp
      rw [← h1]
      exact Int.emod_eq_of_lt (by omega) (by omega)
    have hbig : ¬ to_size_t w x < 2 ^ (w - 1) := by
      intro hlt'
      have : ((to_size_t w x : Nat) : Int) < ((2 ^ (w - 1) : Nat) : Int) := by
        exact_mod_cast hlt'
      rw [hcast, hxm] at this
      push_cast at this
      omega
    rw [if_neg hbig, hcast, hxm]
    omega

theorem size_bytes_eq_wrap (w : Nat) (s : Nat) (v : span) :
    v.size_bytes w s = to_ptrdiff_t w (to_size_t w (v.size * (s : Int))) := by
  have hpos : (0 : Int) < 2 ^ w := by positivity
  unfold span.size_bytes
  congr 1
  apply Int.ofNat_inj.mp
  have h1 : ((to_size_t w v.size : Nat) : Int) = v.size % 2 ^ w := by
    unfold to_size_t
    exact Int.toNat_of_nonneg (Int.emod_nonneg _ (ne_of_gt hpos))
  have h2 : ((to_size_t w (v.size * (s : Int)) : Nat) : Int) = (v.size * (s : Int)) % 2 ^ w := by
    unfold to_size_t
    exact Int.toNat_of_nonneg (Int.emod_nonneg _ (ne_of_gt hpos))
  rw [h2]
  push_cast
  rw [h1, ← Int.mul_emod]

theorem to_ptrdiff_t_to_size_t_wrap (w : Nat) (hw : 0 < w) (x : Int) :
    -(2 ^ (w - 1) : Int) ≤ to_ptrdiff_t w (to_size_t w x) ∧
    to_ptrdiff_t w (to_size_t w x) < 2 ^ (w - 1) ∧
    to_ptrdiff_t w (to_size_t w x) % 2 ^ w = x % 2 ^ w := by
  have hpow : (2 : Int) ^ w = 2 * 2 ^ (w - 1) := by
    obtain ⟨k, rfl⟩ : ∃ k, w = k + 1 := ⟨w - 1, by omega⟩
    simp [pow_succ, mul_comm]
  have hpos : (0 : Int) < 2 ^ w := by positivity
  have hmod_nonneg : 0 ≤ x % 2 ^ w := Int.emod_nonneg x (ne_of_gt hpos)
  have hmod_lt : x % 2 ^ w < 2 ^ w := Int.emod_lt_of_pos x hpos
  have hcast : ((to_size_t w x : Nat) : Int) = x % 2 ^ w := by
    unfold to_size_t
    exact Int.toNat_of_nonneg hmod_nonneg
  have hlt : to_size_t w x < 2 ^ w := by
    have : ((to_size_t w x : Nat) : Int) < ((2 ^ w : Nat) : Int) := by
      rw [hcast]; push_cast; exact hmod_lt
    exact_mod_cast this
  unfold to_ptrdiff_t
  rw [Nat.mod_eq_of_lt hlt]
  by_cases hsmall : to_size_t w x < 2 ^ (w - 1)
  · have hsmall' : x % 2 ^ w < 2 ^ (w - 1) := by
      have : ((to_size_t w x : Nat) : Int) < ((2 ^ (w - 1) : Nat) : Int) := by
        exact_mod_cast hsmall
      rw [hcast] at this
      push_cast at this
      exact this
    rw [if_pos hsmall, hcast]
    refine ⟨by omega, hsmall', Int.emod_emod_of_dvd x (dvd_refl _)⟩
  · have hbig : (2 : Int) ^ (w - 1) ≤ x % 2 ^ w := by
      have : ¬ ((to_size_t w x : Nat) : Int) < ((2 ^ (w - 1) : Nat) : Int) := by
        exact_mod_cast hsmall
      rw [hcast] at this
      push_cast at this
      omega
    rw [if_neg hsmall, hcast]
    refine ⟨by omega, by omega, ?_⟩
    rw [Int.sub_emod, Int.emod_self, sub_zero, Int.emod_emod_of_dvd _ (dvd_refl _),
      Int.emod_emod_of_dvd _ (dvd_refl _)]

/-- C10, with the modular law of the byte count: for every view `v` of size `n`
over elements of byte size `s`, `v.size()` is `n` (as the dynamic
`(pointer, count)` constructor makes it), `v.empty()` is `n == 0`, and
`v.size_bytes()` is `n * s` computed in the `w`-bit `std::size_t` and converted
to `index_type`: the one value in `[-2 ^ (w - 1), 2 ^ (w - 1))` congruent to
`n * s` modulo `2 ^ w`. It is `n * s` whenever `n * s` is representable in the
`w`-bit `index_type`. -/
theorem size_observers (w : Nat) (s : Nat) (v : span) (n : Int) (hn : v.size = n)
    (hw : 0 < w) :
    v.size = n ∧ (∀ p : Int, (span.init dynamic_extent p n).size = n) ∧
    v.empty = decide (n = 0) ∧
    v.size_bytes w s = to_ptrdiff_t w (to_size_t w (n * s)) ∧
    (-(2 ^ (w - 1) : Int) ≤ v.size_bytes w s ∧ v.size_bytes w s < 2 ^ (w - 1) ∧
      v.size_bytes w s % 2 ^ w = (n * s) % 2 ^ w) ∧
    (-(2 ^ (w - 1) : Int) ≤ n * s → n * s < 2 ^ (w - 1) → v.size_bytes w s = n * s) := by
  have hwrap : v.size_bytes w s = to_ptrdiff_t w (to_size_t w (n * s)) := by
    rw [size_bytes_eq_wrap, hn]
  refine ⟨hn, fun p => span.size_init_dynamic p n, ?_, hwrap, ?_, ?_⟩
  · simp [span.empty, hn]
  · rw [hwrap]
    exact to_ptrdiff_t_to_size_t_wrap w hw (n * s)
  · intro hlo hhi
    rw [hwrap]
    exact to_ptrdiff_t_to_size_t w hw (n * s) hlo hhi

theorem size_observers_witness :
    (example_view.size = 4 ∧ 0 < 64 ∧ -(2 ^ (64 - 1) : Int) ≤ 4 * (4 : Nat) ∧
      (4 : Int) * (4 : Nat) < 2 ^ (64 - 1)) ∧
    example_view.size_bytes 64 4 = 4 * (4 : Nat) ∧
    example_view.size_bytes 64 4 = 16 ∧ example_view.empty = false ∧
    (span.init dynamic_extent 100 (2 ^ 61)).size_bytes 64 4
      = to_ptrdiff_t 64 (to_size_t 64 (2 ^ 61 * (4 : Nat))) ∧
    (span.init dynamic_extent 100 (2 ^ 61)).size_bytes 64 4 = -(2 ^ 63) ∧
    (span.init dynamic_extent 100 (-1)).size_bytes 64 4 = -4 :=
  ⟨by decide,
   (size_observers 64 4 example_view 4 (by decide) (by decide)).2.2.2.2.2
     (by decide) (by decide),
   by decide, by decide,
   (size_observers 64 4 (span.init dynamic_extent 100 (2 ^ 61)) (2 ^ 61) (by decide)
     (by decide)).2.2.2.1,
   by decide, by decide⟩

/-- C10 as stated fails when `n * s` overflows: a view of `2 ^ 62` elements of
4 bytes has `size_bytes()` zero on a 64-bit target, not `2 ^ 64`. -/
theorem size_observers_counterexample :
    (span.init dynamic_extent 100 (2 ^ 62)).size = 2 ^ 62 ∧
    (span.init dynamic_extent 100 (2 ^ 62)).size_bytes 64 4 = 0 ∧
    (span.init dynamic_extent 100 (2 ^ 62)).size_bytes 64 4
      ≠ (span.init dynamic_extent 100 (2 ^ 62)).size * 4 := by
  decide

/-! ## Invariants of the storage -/

/-- C12: for a fixed extent `N ≥ 0`, every instance of `span<T, N>` has `size()`
equal to `N`: whatever value of the type is at hand, and in particular the
result of each constructor of `span<T, N>` (which has that extent) and of each
derivation with a static result extent `N`. -/
theorem fixed_extent_invariant (N : Int) (hN : 0 ≤ N) :
    (∀ v : span, v.extent = N → v.size = N) ∧
    (∀ p c : Int, (span.init N p c).extent = N ∧ (span.init N p c).size = N) ∧
    (∀ f l : Int, (span.init_range N f l).extent = N ∧ (span.init_range N f l).size = N) ∧
    (∀ (arr : Int) (M : Nat) (v : span), span.from_array N arr M = some v →
      v.extent = N ∧ v.size = N) ∧
    (∀ (arr : std_array) (v : span), span.from_std_array N arr = some v →
      v.extent = N ∧ v.size = N) ∧
    (∀ (w : Nat) (cont : Container), (span.from_container w N cont).extent = N ∧
      (span.from_container w N cont).size = N) ∧
    (∀ other v : span, span.from_span N other = some v → v.extent = N ∧ v.size = N) ∧
    (∀ v : span, span.default N = some v → v.extent = N ∧ v.size = N) ∧
    (∀ s : span, (s.first_t N).extent = N ∧ (s.first_t N).size = N) ∧
    (∀ s : span, (s.last_t N).extent = N ∧ (s.last_t N).size = N) ∧
    (∀ (s : span) (Offset Count : Int), (s.subspan_t Offset Count).extent = N →
      (s.subspan_t Offset Count).size = N) := by
  have hne : N ≠ dynamic_extent := span.extent_ne_dynamic_of_nonneg N hN
  have hall : ∀ v : span, v.extent = N → v.size = N := by
    intro v hv
    rw [← hv]
    exact span.size_eq_extent_of_fixed v (by rw [hv]; exact hne)
  have hinit : ∀ p c : Int, (span.init N p c).extent = N ∧ (span.init N p c).size = N :=
    fun p c => ⟨span.extent_init N p c, span.size_init_fixed N p c hN⟩
  refine ⟨hall, hinit, ?_, ?_, ?_, ?_, ?_, ?_, ?_, ?_, ?_⟩
  · intro f l
    exact hinit f (l - f)
  · intro arr M v hv
    unfold span.from_array at hv
    split at hv
    · cases hv; exact hinit _ _
    · cases hv
  · intro arr v hv
    unfold span.from_std_array at hv
    split at hv
    · cases hv; exact hinit _ _
    · cases hv
  · intro w cont
    exact hinit _ _
  · intro other v hv
    unfold span.from_span at hv
    split at hv
    · cases hv; exact hinit _ _
    · cases hv
  · intro v hv
    unfold span.default at hv
    split at hv
    · cases hv
      have hd : span_storage.default N = span_storage.fixed N nullptr := by
        simp [span_storage.default, hne]
      simp [span.extent, span.size, hd, span_storage.size]
    · cases hv
  · intro s
    exact hinit _ _
  · intro s
    exact hinit _ _
  · intro s Offset Count hx
    exact hall _ hx

theorem fixed_extent_invariant_witness :
    (0 : Int) ≤ 3 ∧
    (span.init 3 100 5).size = 3 ∧
    (span.from_container 64 3 ⟨100, 4⟩).size = 3 ∧
    ((span.init dynamic_extent 100 4).first_t 3).size = 3 :=
  ⟨by decide,
   ((fixed_extent_invariant 3 (by decide)).2.1 100 5).2,
   ((fixed_extent_invariant 3 (by decide)).1 (span.from_container 64 3 ⟨100, 4⟩) (by decide)),
   by decide⟩

/-- C13, for the view types on which it holds: `span(p, c)` has `data() == p` in
every view type, and `size() == c` when the extent is dynamic or equal to `c`;
`span(first, last)` has `data() == first`, and `size() == last - first` when the
extent is dynamic or equal to `last - first`. In a fixed-extent type `size()`
is the extent whatever count is passed. -/
theorem pointer_count_constructor (Extent : Int) (p c first_elem last_elem : Int) :
    (span.init Extent p c).data = p ∧
    ((Extent = dynamic_extent ∨ c = Extent) → (span.init Extent p c).size = c) ∧
    (Extent ≠ dynamic_extent → (span.init Extent p c).size = Extent) ∧
    (span.init_range Extent first_elem last_elem).data = first_elem ∧
    ((Extent = dynamic_extent ∨ last_elem - first_elem = Extent) →
      (span.init_range Extent first_elem last_elem).size = last_elem - first_elem) ∧
    (Extent ≠ dynamic_extent → (span.init_range Extent first_elem last_elem).size = Extent) := by
  refine ⟨span.data_init Extent p c, span.size_init_of_eq Extent p c, ?_,
    span.data_init Extent first_elem _, span.size_init_of_eq Extent first_elem _, ?_⟩
  · intro h
    rw [span.size_init, if_neg h]
  · intro h
    show (span.init Extent first_elem (last_elem - first_elem)).size = Extent
    rw [span.size_init, if_neg h]

theorem pointer_count_constructor_witness :
    ((span.init dynamic_extent 100 4).data = 100 ∧ (span.init dynamic_extent 100 4).size = 4) ∧
    ((span.init_range dynamic_extent 100 104).data = 100 ∧
      (span.init_range dynamic_extent 100 104).size = 104 - 100) ∧
    (span.init 4 100 4).size = 4 :=
  ⟨⟨(pointer_count_constructor dynamic_extent 100 4 100 104).1,
    (pointer_count_constructor dynamic_extent 100 4 100 104).2.1 (Or.inl rfl)⟩,
   ⟨(pointer_count_constructor dynamic_extent 100 4 100 104).2.2.2.1,
    (pointer_count_constructor dynamic_extent 100 4 100 104).2.2.2.2.1 (Or.inl rfl)⟩,
   by decide⟩

/-- C13 as stated fails for a fixed extent: `span<int, 3>(p, 5)` has `size()` 3,
not 5, and `span<int, 3>(first, first + 5)` likewise. -/
theorem pointer_count_constructor_counterexample :
    (span.init 3 100 5).extent = 3 ∧ (span.init 3 100 5).data = 100 ∧
    (span.init 3 100 5).size = 3 ∧ (span.init 3 100 5).size ≠ 5 ∧
    (span.init_range 3 100 105).size ≠ 105 - 100 := by
  decide

/-- C14: the default constructor of `span<T, Extent>` exists exactly when
`Extent <= 0`, that is for the dynamic extent and for the fixed extent 0, and
the view it builds has `data() == nullptr` and `size() == 0`, so `empty()`. -/
theorem default_constructor (Extent : Int) (hE : valid_extent Extent) :
    ((span.default Extent).isSome = decide (Extent ≤ 0)) ∧
    (Extent ≤ 0 ↔ Extent = dynamic_extent ∨ Extent = 0) ∧
    (∀ v : span, span.default Extent = some v →
      v.data = nullptr ∧ v.size = 0 ∧ v.empty = true ∧ v.extent = Extent) := by
  have hcases : Extent ≤ 0 ↔ Extent = dynamic_extent ∨ Extent = 0 := by
    unfold valid_extent at hE
    unfold dynamic_extent at hE ⊢
    omega
  refine ⟨?_, hcases, ?_⟩
  · unfold span.default
    by_cases h : Extent ≤ 0 <;> simp [h]
  · intro v hv
    unfold span.default at hv
    by_cases h : Extent ≤ 0
    · rw [if_pos h] at hv
      cases hv
      rcases hcases.mp h with hd | h0
      · subst hd
        decide
      · subst h0
        decide
    · rw [if_neg h] at hv
      cases hv

theorem default_constructor_witness :
    (valid_extent dynamic_extent ∧ valid_extent 0) ∧
    (∀ v : span, span.default dynamic_extent = some v →
      v.data = nullptr ∧ v.size = 0 ∧ v.empty = true ∧ v.extent = dynamic_extent) ∧
    (∀ v : span, span.default 0 = some v →
      v.data = nullptr ∧ v.size = 0 ∧ v.empty = true ∧ v.extent = 0) ∧
    span.default dynamic_extent = some ⟨span_storage.dynamic nullptr 0⟩ ∧
    span.default 0 = some ⟨span_storage.fixed 0 nullptr⟩ ∧
    span.default 4 = none :=
  ⟨by decide,
   (default_constructor dynamic_extent (by decide)).2.2,
   (default_constructor 0 (by decide)).2.2,
   by decide, by decide, by decide⟩

/-- C16: for `subspan<Offset, Count>()` on a view of extent `Extent`, the static
extent of the result is `Count` when `Count` is given (is not
`dynamic_extent`), otherwise `Extent - Offset` when `Extent` is fixed,
otherwise dynamic; when the result's extent is static the returned view's
`size()` equals it, and in the fully dynamic case `size()` is the source's
`size() - Offset`. -/
theorem subspan_static_extent (v : span) (Offset Count : Int) :
    (Count ≠ dynamic_extent → (v.subspan_t Offset Count).extent = Count) ∧
    (Count = dynamic_extent → v.extent ≠ dynamic_extent →
      (v.subspan_t Offset Count).extent = v.extent - Offset) ∧
    (Count = dynamic_extent → v.extent = dynamic_extent →
      (v.subspan_t Offset Count).extent = dynamic_extent) ∧
    ((v.subspan_t Offset Count).extent ≠ dynamic_extent →
      (v.subspan_t Offset Count).size = (v.subspan_t Offset Count).extent) ∧
    (Count = dynamic_extent → v.extent = dynamic_extent →
      (v.subspan_t Offset Count).size = v.size - Offset) := by
  have hext : (v.subspan_t Offset Count).extent = span.subspan_extent v.extent Offset Count := by
    unfold span.subspan_t
    exact span.extent_init _ _ _
  refine ⟨?_, ?_, ?_, ?_, ?_⟩
  · intro hC
    rw [hext, span.subspan_extent, if_pos hC]
  · intro hC hE
    rw [hext, span.subspan_extent, if_neg (not_not.mpr hC), if_pos hE]
  · intro hC hE
    rw [hext, span.subspan_extent, if_neg (not_not.mpr hC), if_neg (not_not.mpr hE)]
  · intro hX
    exact span.size_eq_extent_of_fixed _ hX
  · intro hC hE
    unfold span.subspan_t
    rw [span.size_init]
    simp [span.subspan_extent, hC, hE]

theorem subspan_static_extent_witness :
    ((2 : Int) ≠ dynamic_extent → ((span.init 4 100 4).subspan_t 1 2).extent = 2) ∧
    ((span.init 4 100 4).subspan_t 1 2).size = 2 ∧
    ((span.init 4 100 4).subspan_t 1).extent = 3 ∧
    ((span.init 4 100 4).subspan_t 1).size = 3 ∧
    ((span.init dynamic_extent 100 4).subspan_t 1).extent = dynamic_extent ∧
    ((span.init dynamic_extent 100 4).subspan_t 1).size = 3 ∧
    ((span.init dynamic_extent 100 4).subspan_t 1 2).extent = 2 :=
  ⟨(subspan_static_extent (span.init 4 100 4) 1 2).1,
   by decide, by decide, by decide, by decide, by decide, by decide⟩

/-- C20: sub-views compose. For `0 ≤ a`, `0 ≤ c`, `a + c ≤ v.size()`, `0 ≤ b`,
`0 ≤ d`, `b + d ≤ c`, `v.subspan(a, c).subspan(b, d)` is the same view (data
pointer and size) as `v.subspan(a + b, d)`; and with the count left at the
sentinel, `v.subspan(a).subspan(b)` is the same view as `v.subspan(a + b)` for
`0 ≤ a`, `0 ≤ b`, `a + b ≤ v.size()`. -/
theorem subspan_compose (v : span) (a c b d : Int) :
    (0 ≤ a → 0 ≤ c → a + c ≤ v.size → 0 ≤ b → 0 ≤ d → b + d ≤ c →
      (v.subspan a c).subspan b d = v.subspan (a + b) d ∧
      ((v.subspan a c).subspan b d).data = (v.subspan (a + b) d).data ∧
      ((v.subspan a c).subspan b d).size = (v.subspan (a + b) d).size) ∧
    (0 ≤ a → 0 ≤ b → a + b ≤ v.size →
      (v.subspan a).subspan b = v.subspan (a + b) ∧
      ((v.subspan a).subspan b).data = (v.subspan (a + b)).data ∧
      ((v.subspan a).subspan b).size = (v.subspan (a + b)).size) := by
  refine ⟨?_, ?_⟩
  · intro _ hc _ _ hd _
    have hcne : c ≠ dynamic_extent := span.extent_ne_dynamic_of_nonneg c hc
    have hdne : d ≠ dynamic_extent := span.extent_ne_dynamic_of_nonneg d hd
    have h : (v.subspan a c).subspan b d = v.subspan (a + b) d := by
      simp [span.subspan, hcne, hdne, span.data_init, add_assoc]
    exact ⟨h, by rw [h], by rw [h]⟩
  · intro _ _ _
    have h : (v.subspan a).subspan b = v.subspan (a + b) := by
      simp only [span.subspan, if_true, span.data_init, span.size_init_dynamic, add_assoc]
      congr 1
      omega
    exact ⟨h, by rw [h], by rw [h]⟩

theorem subspan_compose_witness :
    ((0 : Int) ≤ 1 ∧ (0 : Int) ≤ 3 ∧ (1 : Int) + 3 ≤ example_view.size ∧ (0 : Int) ≤ 1 ∧
      (0 : Int) ≤ 2 ∧ (1 : Int) + 2 ≤ 3) ∧
    ((example_view.subspan 1 3).subspan 1 2 = example_view.subspan (1 + 1) 2 ∧
      ((example_view.subspan 1 3).subspan 1 2).data = (example_view.subspan (1 + 1) 2).data ∧
      ((example_view.subspan 1 3).subspan 1 2).size = (example_view.subspan (1 + 1) 2).size) ∧
    ((example_view.subspan 1).subspan 1 = example_view.subspan (1 + 1) ∧
      ((example_view.subspan 1).subspan 1).data = (example_view.subspan (1 + 1)).data ∧
      ((example_view.subspan 1).subspan 1).size = (example_view.subspan (1 + 1)).size) ∧
    ((example_view.subspan 1 3).subspan 1 2).elements example_mem = [30, 40] :=
  ⟨by decide,
   (subspan_compose example_view 1 3 1 2).1 (by decide) (by decide) (by decide) (by decide)
     (by decide) (by decide),
   (subspan_compose example_view 1 3 1 2).2 (by decide) (by decide) (by decide),
   by decide⟩

/-! ## Non-negative sizes -/

/-- C15, with the modular law of the byte count: `as_bytes(v)` starts at the
address of `v`; its static extent is `s * Extent` when the extent of `v` is
fixed and dynamic when it is dynamic; its `size()` is `v.size() * s` when the
extent of `v` is fixed, and when it is dynamic and `v.size() * s` is
representable in the `w`-bit `index_type`; `as_writable_bytes` (non-`const`
elements) returns the same view; and for a dynamic extent `size()` is always
`v.size() * s` computed in the `w`-bit `std::size_t` and converted to
`index_type`, the one value in `[-2 ^ (w - 1), 2 ^ (w - 1))` congruent to
`v.size() * s` modulo `2 ^ w`. -/
theorem as_bytes_correct (w : Nat) (s : Nat) (v : span) (hw : 0 < w)
    (hv : valid_extent v.extent) :
    (as_bytes w s v).data = v.data ∧
    (v.extent ≠ dynamic_extent → (as_bytes w s v).extent = (s : Int) * v.extent) ∧
    (v.extent = dynamic_extent → (as_bytes w s v).extent = dynamic_extent) ∧
    ((v.extent ≠ dynamic_extent ∨
        (-(2 ^ (w - 1) : Int) ≤ v.size * s ∧ v.size * s < 2 ^ (w - 1))) →
      (as_bytes w s v).size = v.size * s) ∧
    as_writable_bytes false w s v = some (as_bytes w s v) ∧
    as_writable_bytes true w s v = none ∧
    (v.extent = dynamic_extent →
      (as_bytes w s v).size = to_ptrdiff_t w (to_size_t w (v.size * s)) ∧
      -(2 ^ (w - 1) : Int) ≤ (as_bytes w s v).size ∧ (as_bytes w s v).size < 2 ^ (w - 1) ∧
      (as_bytes w s v).size % 2 ^ w = (v.size * s) % 2 ^ w) := by
  refine ⟨?_, ?_, ?_, ?_, rfl, rfl, ?_⟩
  rotate_right
  · intro hd
    have hsz : (as_bytes w s v).size = to_ptrdiff_t w (to_size_t w (v.size * s)) := by
      unfold as_bytes
      rw [span.size_init]
      simp only [as_bytes_extent, hd, if_true]
      exact size_bytes_eq_wrap w s v
    refine ⟨hsz, ?_⟩
    rw [hsz]
    exact to_ptrdiff_t_to_size_t_wrap w hw (v.size * s)
  · unfold as_bytes
    rw [span.data_init]
    rfl
  · intro h
    unfold as_bytes
    rw [span.extent_init, as_bytes_extent, if_neg h]
  · intro h
    unfold as_bytes
    rw [span.extent_init, as_bytes_extent, if_pos h]
  · intro h
    unfold as_bytes
    rw [span.size_init]
    by_cases hd : v.extent = dynamic_extent
    · rcases h with h | ⟨hlo, hhi⟩
      · exact absurd hd h
      · simp only [as_bytes_extent, hd, if_true]
        rw [size_bytes_eq_wrap]
        exact to_ptrdiff_t_to_size_t w hw _ hlo hhi
    · have hE : 0 ≤ v.extent := by
        rcases hv with hv | hv
        · exact absurd hv hd
        · exact hv
      have hsz : v.size = v.extent := span.size_eq_extent_of_fixed v hd
      have hprod : (0 : Int) ≤ (s : Int) * v.extent :=
        mul_nonneg (Int.ofNat_nonneg s) hE
      simp only [as_bytes_extent, hd, if_false]
      rw [if_neg (span.extent_ne_dynamic_of_nonneg _ hprod), hsz, mul_comm]

theorem as_bytes_correct_witness :
    (0 < 64 ∧ valid_extent example_view.extent ∧ valid_extent (span.init 4 100 4).extent) ∧
    (as_bytes 64 4 example_view).data = example_view.data ∧
    (as_bytes 64 4 example_view).size = example_view.size * (4 : Nat) ∧
    (as_bytes 64 4 example_view).size = 16 ∧
    (as_bytes 64 4 example_view).extent = dynamic_extent ∧
    (as_bytes 64 4 (span.init 4 100 4)).extent = 16 ∧
    (as_bytes 64 4 (span.init 4 100 4)).size = (span.init 4 100 4).size * (4 : Nat) ∧
    (as_bytes 64 4 (span.init dynamic_extent 100 (2 ^ 61))).size
      = to_ptrdiff_t 64 (to_size_t 64 ((span.init dynamic_extent 100 (2 ^ 61)).size * (4 : Nat))) ∧
    (as_bytes 64 4 (span.init dynamic_extent 100 (2 ^ 61))).size = -(2 ^ 63) :=
  ⟨by decide,
   (as_bytes_correct 64 4 example_view (by decide) (by decide)).1,
   (as_bytes_correct 64 4 example_view (by decide) (by decide)).2.2.2.1
     (Or.inr (by decide)),
   by decide, by decide, by decide,
   (as_bytes_correct 64 4 (span.init 4 100 4) (by decide) (by decide)).2.2.2.1
     (Or.inl (by decide)),
   ((as_bytes_correct 64 4 (span.init dynamic_extent 100 (2 ^ 61)) (by decide)
     (by decide)).2.2.2.2.2.2 (by decide)).1,
   by decide⟩

/-- C15 as stated fails when `v.size() * s` overflows: for a dynamic-extent view
of `2 ^ 62` elements of 4 bytes, `as_bytes(v).size()` is zero on a 64-bit
target. -/
theorem as_bytes_correct_counterexample :
    (as_bytes 64 4 (span.init dynamic_extent 100 (2 ^ 62))).size = 0 ∧
    (as_bytes 64 4 (span.init dynamic_extent 100 (2 ^ 62))).size
      ≠ (span.init dynamic_extent 100 (2 ^ 62)).size * 4 := by
  decide

/-! ## Equality and ordering as relations -/

/-- C17: equality of views is reflexive and symmetric when the elements'
comparison is: if `x != x` is false for every element then `v == v` is true,
and if `y != x` agrees with `x != y` then `a == b` and `b == a` agree, for
views of any extents. -/
theorem operator_eq_refl_symm {T U : Type} (neTT : T → T → Bool) (neTU : T → U → Bool)
    (neUT : U → T → Bool) (memT : Mem T) (memU : Mem U) (v a b : span)
    (hrefl : ∀ x, neTT x x = false) (hsymm : ∀ x y, neUT y x = neTU x y) :
    operator_eq neTT memT memT v v = true ∧
    (operator_eq neTU memT memU a b = true ↔ operator_eq neUT memU memT b a = true) ∧
    operator_eq neTU memT memU a b = operator_eq neUT memU memT b a := by
  have hs : operator_eq neTU memT memU a b = true ↔ operator_eq neUT memU memT b a = true := by
    rw [operator_eq_true_iff, operator_eq_true_iff]
    constructor
    · rintro ⟨hsz, h⟩
      refine ⟨hsz.symm, fun i h0 hi => ?_⟩
      rw [hsymm]
      exact h i h0 (by omega)
    · rintro ⟨hsz, h⟩
      refine ⟨hsz.symm, fun i h0 hi => ?_⟩
      rw [← hsymm]
      exact h i h0 (by omega)
  refine ⟨?_, hs, Bool.eq_iff_iff.mpr hs⟩
  rw [operator_eq_true_iff]
  exact ⟨rfl, fun i _ _ => hrefl _⟩

theorem operator_eq_refl_symm_witness :
    ((∀ x : Int, int_ne x x = false) ∧ (∀ x y : Int, int_ne y x = int_ne x y)) ∧
    operator_eq int_ne two_arrays_mem two_arrays_mem
      (span.init dynamic_extent 100 3) (span.init dynamic_extent 100 3) = true ∧
    (operator_eq int_ne two_arrays_mem two_arrays_mem
        (span.init 3 100 3) (span.init dynamic_extent 200 3)
      = operator_eq int_ne two_arrays_mem two_arrays_mem
        (span.init dynamic_extent 200 3) (span.init 3 100 3)) ∧
    operator_eq int_ne two_arrays_mem two_arrays_mem
      (span.init 3 100 3) (span.init dynamic_extent 200 3) = true :=
  have hrefl : ∀ x : Int, int_ne x x = false := fun x => by simp [int_ne]
  have hsymm : ∀ x y : Int, int_ne y x = int_ne x y := fun x y => by
    simp only [int_ne, ne_comm]
  ⟨⟨hrefl, hsymm⟩,
   (operator_eq_refl_symm int_ne int_ne int_ne two_arrays_mem two_arrays_mem
      (span.init dynamic_extent 100 3) (span.init 3 100 3) (span.init dynamic_extent 200 3)
      hrefl hsymm).1,
   (operator_eq_refl_symm int_ne int_ne int_ne two_arrays_mem two_arrays_mem
      (span.init dynamic_extent 100 3) (span.init 3 100 3) (span.init dynamic_extent 200 3)
      hrefl hsymm).2.2,
   by decide⟩

theorem operator_lt_total_iff {α : Type} [LinearOrder α] (memA memB : Mem α) (a b : span) :
    operator_lt elem_lt elem_gt memA memB a b = true ↔
      (∃ k : Int, 0 ≤ k ∧ k < a.size ∧ k < b.size ∧
        (∀ j : Int, 0 ≤ j → j < k → a.index memA j = b.index memB j) ∧
        a.index memA k < b.index memB k) ∨
      ((∀ j : Int, 0 ≤ j → j < a.size → j < b.size → a.index memA j = b.index memB j) ∧
        a.size < b.size) := by
  have hm : ∀ k : Int, k < (if a.size < b.size then a.size else b.size) ↔
      (k < a.size ∧ k < b.size) := by
    intro k
    split <;> constructor <;> intro h <;> omega
  have hnd : ∀ x y : α, (elem_lt x y = false ∧ elem_gt x y = false) ↔ x = y := by
    intro x y
    simp only [elem_lt, elem_gt, decide_eq_false_iff_not, not_lt, gt_iff_lt]
    constructor
    · rintro ⟨h1, h2⟩
      exact le_antisymm h2 h1
    · intro h
      exact ⟨le_of_eq h.symm, le_of_eq h⟩
  have hlt : ∀ x y : α, elem_lt x y = true ↔ x < y := by
    intro x y
    simp [elem_lt]
  have hgt : ∀ x y : α, elem_gt x y = true ↔ y < x := by
    intro x y
    simp [elem_gt]
  have hidx := operator_lt_loop_index elem_lt elem_gt memA memB a b
    (if a.size < b.size then a.size else b.size)
    (if a.size < b.size then a.size else b.size).toNat 0 (by omega)
  have hdef : operator_lt elem_lt elem_gt memA memB a b
      = operator_lt_loop elem_lt elem_gt memA memB a b
          (if a.size < b.size then a.size else b.size)
          (if a.size < b.size then a.size else b.size).toNat 0 := rfl
  rw [hdef]
  constructor
  · intro hres
    rcases hidx with ⟨k, hk0, hkm, hbefore, _, hr⟩ | ⟨hall, hr⟩
    · left
      refine ⟨k, hk0, ((hm k).mp hkm).1, ((hm k).mp hkm).2, ?_, ?_⟩
      · intro j hj0 hjk
        exact (hnd _ _).mp (hbefore j hj0 hjk)
      · rw [hr] at hres
        exact (hlt _ _).mp hres
    · right
      refine ⟨?_, ?_⟩
      · intro j hj0 hja hjb
        exact (hnd _ _).mp (hall j hj0 ((hm j).mpr ⟨hja, hjb⟩))
      · rw [hr] at hres
        exact of_decide_eq_true hres
  · rintro (⟨k, hk0, hka, hkb, hbefore, hk⟩ | ⟨hall, hsz⟩)
    · rcases hidx with ⟨k', hk0', hkm', hbefore', hdec, hr⟩ | ⟨hall', _⟩
      · have hkk : k' = k := by
          rcases lt_trichotomy k' k with h | h | h
          · exfalso
            have heq := hbefore k' hk0' h
            rcases hdec with hd | hd
            · exact absurd ((hlt _ _).mp hd) (by rw [heq]; exact lt_irrefl _)
            · exact absurd ((hgt _ _).mp hd) (by rw [heq]; exact lt_irrefl _)
          · exact h
          · exfalso
            have := (hnd _ _).mp (hbefore' k hk0 h)
            rw [this] at hk
            exact lt_irrefl _ hk
        rw [hr, hkk]
        exact (hlt _ _).mpr hk
      · exfalso
        have := (hnd _ _).mp (hall' k hk0 ((hm k).mpr ⟨hka, hkb⟩))
        rw [this] at hk
        exact lt_irrefl _ hk
    · rcases hidx with ⟨k', hk0', hkm', _, hdec, _⟩ | ⟨_, hr⟩
      · exfalso
        have heq := hall k' hk0' ((hm k').mp hkm').1 ((hm k').mp hkm').2
        rcases hdec with hd | hd
        · exact absurd ((hlt _ _).mp hd) (by rw [heq]; exact lt_irrefl _)
        · exact absurd ((hgt _ _).mp hd) (by rw [heq]; exact lt_irrefl _)
      · rw [hr]
        exact decide_eq_true hsz

theorem operator_eq_total_iff {α : Type} [LinearOrder α] (memA memB : Mem α) (a b : span) :
    operator_eq elem_ne memA memB a b = true ↔
      a.size = b.size ∧
        ∀ i : Int, 0 ≤ i → i < a.size → a.index memA i = b.index memB i := by
  rw [operator_eq_true_iff]
  simp [elem_ne]

/-- C18: over elements with a strict total order (with `>` and `!=` the usual
companions of `<`), if `a == b` then neither `a < b` nor `b < a`. -/
theorem eq_not_lt {α : Type} [LinearOrder α] (memA memB : Mem α) (a b : span)
    (heq : operator_eq elem_ne memA memB a b = true) :
    operator_lt elem_lt elem_gt memA memB a b = false ∧
    operator_lt elem_lt elem_gt memB memA b a = false := by
  obtain ⟨hsz, hel⟩ := (operator_eq_total_iff memA memB a b).mp heq
  refine ⟨?_, ?_⟩
  · rw [← Bool.not_eq_true, operator_lt_total_iff]
    rintro (⟨k, hk0, hka, _, _, hk⟩ | ⟨_, hlt⟩)
    · rw [hel k hk0 hka] at hk
      exact lt_irrefl _ hk
    · omega
  · rw [← Bool.not_eq_true, operator_lt_total_iff]
    rintro (⟨k, hk0, _, hka, _, hk⟩ | ⟨_, hlt⟩)
    · rw [hel k hk0 hka] at hk
      exact lt_irrefl _ hk
    · omega

theorem eq_not_lt_witness :
    operator_eq elem_ne two_arrays_mem two_arrays_mem
      (span.init dynamic_extent 100 3) (span.init dynamic_extent 200 3) = true ∧
    (operator_lt elem_lt elem_gt two_arrays_mem two_arrays_mem
        (span.init dynamic_extent 100 3) (span.init dynamic_extent 200 3) = false ∧
      operator_lt elem_lt elem_gt two_arrays_mem two_arrays_mem
        (span.init dynamic_extent 200 3) (span.init dynamic_extent 100 3) = false) ∧
    (span.init dynamic_extent 100 3).elements two_arrays_mem = [1, 2, 3] ∧
    (span.init dynamic_extent 200 3).elements two_arrays_mem = [1, 2, 3] :=
  have heq : operator_eq elem_ne two_arrays_mem two_arrays_mem
      (span.init dynamic_extent 100 3) (span.init dynamic_extent 200 3) = true := by
    decide
  ⟨heq,
   eq_not_lt two_arrays_mem two_arrays_mem
     (span.init dynamic_extent 100 3) (span.init dynamic_extent 200 3) heq,
   by decide, by decide⟩

/-- C19: over elements with a strict total order, `operator<` on views is
transitive: `a < b` and `b < c` imply `a < c`, for views of any sizes. -/
theorem operator_lt_trans {α : Type} [LinearOrder α] (memA memB memC : Mem α)
    (a b c : span)
    (hab : operator_lt elem_lt elem_gt memA memB a b = true)
    (hbc : operator_lt elem_lt elem_gt memB memC b c = true) :
    operator_lt elem_lt elem_gt memA memC a c = true := by
  rw [operator_lt_total_iff] at hab hbc ⊢
  rcases hab with ⟨k1, h10, h1a, h1b, hb1, hk1⟩ | ⟨hall1, hsz1⟩
  · rcases hbc with ⟨k2, h20, h2b, h2c, hb2, hk2⟩ | ⟨hall2, hsz2⟩
    · rcases lt_trichotomy k1 k2 with h | h | h
      · left
        refine ⟨k1, h10, h1a, by omega, fun j hj0 hj => ?_, ?_⟩
        · rw [hb1 j hj0 hj, hb2 j hj0 (by omega)]
        · rw [← hb2 k1 h10 h]
          exact hk1
      · left
        subst h
        refine ⟨k1, h10, h1a, h2c, fun j hj0 hj => ?_, lt_trans hk1 hk2⟩
        rw [hb1 j hj0 hj, hb2 j hj0 hj]
      · left
        refine ⟨k2, h20, by omega, h2c, fun j hj0 hj => ?_, ?_⟩
        · rw [hb1 j hj0 (by omega), hb2 j hj0 hj]
        · rw [hb1 k2 h20 h]
          exact hk2
    · left
      refine ⟨k1, h10, h1a, by omega, fun j hj0 hj => ?_, ?_⟩
      · rw [hb1 j hj0 hj, hall2 j hj0 (by omega) (by omega)]
      · rw [← hall2 k1 h10 h1b (by omega)]
        exact hk1
  · rcases hbc with ⟨k2, h20, h2b, h2c, hb2, hk2⟩ | ⟨hall2, hsz2⟩
    · by_cases h : k2 < a.size
      · left
        refine ⟨k2, h20, h, h2c, fun j hj0 hj => ?_, ?_⟩
        · rw [hall1 j hj0 (by omega) (by omega), hb2 j hj0 hj]
        · rw [hall1 k2 h20 h h2b]
          exact hk2
      · right
        refine ⟨fun j hj0 hja _ => ?_, by omega⟩
        rw [hall1 j hj0 hja (by omega), hb2 j hj0 (by omega)]
    · right
      refine ⟨fun j hj0 hja hjc => ?_, by omega⟩
      rw [hall1 j hj0 hja (by omega), hall2 j hj0 (by omega) hjc]

theorem operator_lt_trans_witness :
    (operator_lt elem_lt elem_gt (array_mem 100 [1, 2] 0) (array_mem 200 [1, 3] 0)
        (span.init dynamic_extent 100 2) (span.init dynamic_extent 200 2) = true ∧
      operator_lt elem_lt elem_gt (array_mem 200 [1, 3] 0) (array_mem 300 [1, 3, 0] 0)
        (span.init dynamic_extent 200 2) (span.init dynamic_extent 300 3) = true) ∧
    operator_lt elem_lt elem_gt (array_mem 100 [1, 2] 0) (array_mem 300 [1, 3, 0] 0)
      (span.init dynamic_extent 100 2) (span.init dynamic_extent 300 3) = true :=
  have hab : operator_lt elem_lt elem_gt (array_mem 100 [1, 2] 0) (array_mem 200 [1, 3] 0)
      (span.init dynamic_extent 100 2) (span.init dynamic_extent 200 2) = true := by decide
  have hbc : operator_lt elem_lt elem_gt (array_mem 200 [1, 3] 0) (array_mem 300 [1, 3, 0] 0)
      (span.init dynamic_extent 200 2) (span.init dynamic_extent 300 3) = true := by decide
  ⟨⟨hab, hbc⟩,
   operator_lt_trans (array_mem 100 [1, 2] 0) (array_mem 200 [1, 3] 0)
     (array_mem 300 [1, 3, 0] 0) (span.init dynamic_extent 100 2)
     (span.init dynamic_extent 200 2) (span.init dynamic_extent 300 3) hab hbc⟩

/-! ## Compile-time and run-time sub-views -/

theorem span.size_subspan_t_rest (v : span) (Offset : Int) :
    (v.subspan_t Offset).size = v.size - Offset := by
  unfold span.subspan_t
  rw [span.size_init]
  by_cases hE : v.extent = dynamic_extent
  · simp [span.subspan_extent, hE]
  · have hsz : v.size = v.extent := span.size_eq_extent_of_fixed v hE
    simp only [span.subspan_extent, ne_eq, not_true_eq_false, if_false, hE, not_false_eq_true,
      if_true, hsz]
    split <;> rfl

/-- C21: the compile-time forms agree with the run-time forms, for a source `v`
of fixed or dynamic extent. For `0 ≤ Count ≤ v.size()`, `v.first<Count>()` and
`v.last<Count>()` have the data pointer and the `size()` of `v.first(Count)`
and `v.last(Count)`; for `0 ≤ Offset`, `0 ≤ Count`, `Offset + Count ≤ v.size()`,
`v.subspan<Offset, Count>()` has those of `v.subspan(Offset, Count)`; and with
`Count` omitted and `Offset ≤ v.size()`, `v.subspan<Offset>()` has those of
`v.subspan(Offset)`. -/
theorem static_forms_agree (v : span) (Offset Count : Int) :
    (0 ≤ Count → Count ≤ v.size →
      ((v.first_t Count).data = (v.first Count).data ∧
        (v.first_t Count).size = (v.first Count).size) ∧
      ((v.last_t Count).data = (v.last Count).data ∧
        (v.last_t Count).size = (v.last Count).size)) ∧
    (0 ≤ Offset → 0 ≤ Count → Offset + Count ≤ v.size →
      (v.subspan_t Offset Count).data = (v.subspan Offset Count).data ∧
      (v.subspan_t Offset Count).size = (v.subspan Offset Count).size) ∧
    (Offset ≤ v.size →
      (v.subspan_t Offset).data = (v.subspan Offset).data ∧
      (v.subspan_t Offset).size = (v.subspan Offset).size) := by
  refine ⟨?_, ?_, ?_⟩
  · intro hC _
    refine ⟨⟨?_, ?_⟩, ?_, ?_⟩
    · rw [span.first_t, span.first, span.data_init, span.data_init]
    · rw [span.first_t, span.first, span.size_init_fixed Count _ _ hC, span.size_init_dynamic]
    · rw [span.last_t, span.last, span.data_init, span.data_init]
    · rw [span.last_t, span.last, span.size_init_fixed Count _ _ hC, span.size_init_dynamic]
  · intro _ hC _
    have hne : Count ≠ dynamic_extent := span.extent_ne_dynamic_of_nonneg Count hC
    refine ⟨?_, ?_⟩
    · rw [span.subspan_t, span.subspan, span.data_init, span.data_init]
    · have hX : span.subspan_extent v.extent Offset Count = Count := by
        rw [span.subspan_extent, if_pos hne]
      rw [span.subspan_t, span.subspan, hX, span.size_init_fixed Count _ _ hC,
        span.size_init_dynamic, if_neg hne]
  · intro _
    refine ⟨?_, ?_⟩
    · rw [span.subspan_t, span.subspan, span.data_init, span.data_init]
    · rw [span.size_subspan_t_rest, span.subspan, span.size_init_dynamic, if_pos rfl]

theorem static_forms_agree_witness :
    ((0 : Int) ≤ 2 ∧ (2 : Int) ≤ (span.init 4 100 4).size ∧ (0 : Int) ≤ 1 ∧
      (1 : Int) + 2 ≤ (span.init 4 100 4).size ∧ (1 : Int) ≤ example_view.size) ∧
    ((((span.init 4 100 4).first_t 2).data = ((span.init 4 100 4).first 2).data ∧
        ((span.init 4 100 4).first_t 2).size = ((span.init 4 100 4).first 2).size) ∧
      (((span.init 4 100 4).last_t 2).data = ((span.init 4 100 4).last 2).data ∧
        ((span.init 4 100 4).last_t 2).size = ((span.init 4 100 4).last 2).size)) ∧
    (((span.init 4 100 4).subspan_t 1 2).data = ((span.init 4 100 4).subspan 1 2).data ∧
      ((span.init 4 100 4).subspan_t 1 2).size = ((span.init 4 100 4).subspan 1 2).size) ∧
    ((example_view.subspan_t 1).data = (example_view.subspan 1).data ∧
      (example_view.subspan_t 1).size = (example_view.subspan 1).size) ∧
    ((span.init 4 100 4).subspan_t 1).extent = 3 ∧
    ((span.init 4 100 4).subspan_t 1).size = 3 ∧
    ((span.init 4 100 4).subspan 1).size = 3 ∧
    ((span.init 4 100 4).last_t 2).elements example_mem = [30, 40] ∧
    ((span.init 4 100 4).last 2).elements example_mem = [30, 40] :=
  ⟨by decide,
   (static_forms_agree (span.init 4 100 4) 1 2).1 (by decide) (by decide),
   (static_forms_agree (span.init 4 100 4) 1 2).2.1 (by decide) (by decide) (by decide),
   (static_forms_agree example_view 1 2).2.2 (by decide),
   by decide, by decide, by decide, by decide, by decide⟩

end tcb
